import Mathlib

/-!
Verification development for the license-rendering module
(`src/license/utils.py` of the Odysseia repository).

The Python module is shallowly embedded: dictionaries of string fields
become association lists (`StrMap`), `discord.Embed` objects become the
`Embed` structure, and the two pure cores — the license resolver inside
`build_license_embeds` and the bare-URL beautifier `_format_links_in_text`
— become executable Lean functions mirroring the source line by line.
Python code that can raise (`d[k]` indexing) is embedded in `Option`.
-/

namespace Odysseia

/-- A Python `dict[str, str]` as an association list (first match wins on
lookup, in-place overwrite on assignment, insertion at the end for new
keys — the observable behaviour of `dict` for the operations the module
uses). -/
abbrev StrMap := List (String × String)

/-- `m.get(k)` — `None` when absent. -/
def mget? (m : StrMap) (k : String) : Option String :=
  match m with
  | [] => none
  | (k', v) :: rest => if k' = k then some v else mget? rest k

/-- `m.get(k, d)`. -/
def mgetD (m : StrMap) (k d : String) : String :=
  (mget? m k).getD d

/-- `m[k] = v` — overwrite in place, or append a fresh binding. -/
def msetKey (m : StrMap) (k v : String) : StrMap :=
  match m with
  | [] => [(k, v)]
  | (k', v') :: rest =>
      if k' = k then (k, v) :: rest else (k', v') :: msetKey rest k v

/-- `m.update(other)` — assign every binding of `other` into `m`, in order. -/
def mupdate (m other : StrMap) : StrMap :=
  other.foldl (fun acc kv => msetKey acc kv.1 kv.2) m

/-- Lookup in a catalog (`key in CATALOG` / `CATALOG[key]`). -/
def lookupS (m : List (String × StrMap)) (k : String) : Option StrMap :=
  match m with
  | [] => none
  | (k', v) :: rest => if k = k' then some v else lookupS rest k

/-- Does `needle` occur as a contiguous substring (Python `needle in hay`)? -/
def occursB (needle : List Char) : List Char → Bool
  | [] => needle.isEmpty
  | c :: rest => needle.isPrefixOf (c :: rest) || occursB needle rest

/-- Python `needle in hay` on strings. -/
def strContains (hay needle : String) : Bool :=
  occursB needle.data hay.data

/-- Worker for `str.replace` (non-empty needle): leftmost, non-overlapping,
replace all. Fuel-structured so that it evaluates inside the kernel. -/
def replaceAux (needle repl : List Char) : Nat → List Char → List Char
  | _, [] => []
  | 0, hay => hay
  | fuel + 1, c :: rest =>
      if needle.isPrefixOf (c :: rest) then
        repl ++ replaceAux needle repl fuel ((c :: rest).drop needle.length)
      else
        c :: replaceAux needle repl fuel rest

/-- Python `hay.replace(needle, repl)` for the non-empty needles the module
uses (the empty-needle corner of `str.replace` is never exercised by the
source, which only replaces `"CC BY"` and the `{license_type}` hole). -/
def strReplace (hay needle repl : String) : String :=
  if needle.data.isEmpty then hay
  else ⟨replaceAux needle.data repl.data hay.data.length hay.data⟩

/-- The characters Python's `re` counts as `\s` (the `str.isspace` set) —
used both by the URL regex's `[^\s<>()]` class and by `str.strip`. -/
def pyIsSpace (c : Char) : Bool :=
  c = ' ' || c = '\t' || c = '\n' || c = '\r' ||
  c.toNat = 0x0b || c.toNat = 0x0c ||
  c.toNat = 0x1c || c.toNat = 0x1d || c.toNat = 0x1e || c.toNat = 0x1f ||
  c.toNat = 0x85 || c.toNat = 0xa0 || c.toNat = 0x1680 ||
  (0x2000 ≤ c.toNat && c.toNat ≤ 0x200a) ||
  c.toNat = 0x2028 || c.toNat = 0x2029 || c.toNat = 0x202f ||
  c.toNat = 0x205f || c.toNat = 0x3000

/-- Python `s.strip()`. -/
def pyStrip (s : String) : String :=
  ⟨((s.data.dropWhile pyIsSpace).reverse.dropWhile pyIsSpace).reverse⟩

/-- Python truthiness of `s and s.strip() and s != "无"` — the guard the
module applies to `notes` and `personal_statement`. -/
def keepFreeText (s : String) : Bool :=
  s ≠ "" && pyStrip s ≠ "" && s ≠ "无"

/-- `discord.Member` — only the attributes the module reads. -/
structure Member where
  mention : String
  display_name : String
  name : String
  display_avatar_url : String
deriving DecidableEq

/-- The license configuration record (`LicenseConfig` from the external
store): the nested details mapping plus the three toggles. -/
structure LicenseConfig where
  license_details : StrMap
  bot_enabled : Bool
  auto_post : Bool
  require_confirmation : Bool
deriving DecidableEq

/-- The `discord.Color` values the module uses. -/
inductive DColor where
  | gold | orange | lightGrey | blue | blurple
deriving DecidableEq

/-- One `add_field(name=…, value=…, inline=…)` triple. -/
structure EmbedField where
  name : String
  value : String
  isInline : Bool
deriving DecidableEq

/-- A `discord.Embed` — the attributes the module sets. -/
structure Embed where
  title : Option String
  description : Option String
  color : DColor
  author_name : Option String
  author_icon_url : Option String
  fields : List EmbedField
  footer : Option String
deriving DecidableEq

/-- Modelled from the spec: `SIGNATURE_HELPER` lives in
`src/license/constants.py`, which is not among the provided sources; the
spec only requires it to be a fixed signature string. -/
def SIGNATURE_HELPER : String := "创作者权益助手"

/-- Modelled from the spec: `SIGNATURE_LICENSE` from
`src/license/constants.py` (not in the provided sources); a fixed
signature string. -/
def SIGNATURE_LICENSE : String := "内容授权协议"

/-- Modelled from the spec: the command-group name drawn from
`ACTIVE_COMMAND_CONFIG["group"]["name"]` in `src/license/constants.py`
(not in the provided sources); a fixed configured command-name string. -/
def CMD_GROUP_NAME : String := "内容授权"

/-- Modelled from the spec: `CC_LICENSES` from `src/license/constants.py`
(not in the provided sources). Per spec §3 it is a static mapping keyed by
canonical CC names of the form `"CC <letters> <version>"`, each entry
carrying a fixed `url` and term fragments, with NC variants reachable by
textually inserting `-NC` after `BY`; term templates may mention the
same-license hole `{license_type}` (spec §4.1). -/
def CC_LICENSES : List (String × StrMap) := [
  ("CC BY 4.0",
    [("url", "https://creativecommons.org/licenses/by/4.0/"),
     ("reproduce", "允许，需署名"),
     ("derive", "允许，需署名"),
     ("commercial", "允许")]),
  ("CC BY-SA 4.0",
    [("url", "https://creativecommons.org/licenses/by-sa/4.0/"),
     ("reproduce", "允许，需署名"),
     ("derive", "允许，需以 {license_type} 相同的条款分享"),
     ("commercial", "允许")]),
  ("CC BY-NC 4.0",
    [("url", "https://creativecommons.org/licenses/by-nc/4.0/"),
     ("reproduce", "允许，需署名"),
     ("derive", "允许，需署名"),
     ("commercial", "禁止")]),
  ("CC BY-NC-SA 4.0",
    [("url", "https://creativecommons.org/licenses/by-nc-sa/4.0/"),
     ("reproduce", "允许，需署名"),
     ("derive", "允许，需以 {license_type} 相同的条款分享"),
     ("commercial", "禁止")]),
  ("CC BY-ND 4.0",
    [("url", "https://creativecommons.org/licenses/by-nd/4.0/"),
     ("reproduce", "允许，需署名"),
     ("derive", "禁止"),
     ("commercial", "允许")]),
  ("CC BY-NC-ND 4.0",
    [("url", "https://creativecommons.org/licenses/by-nc-nd/4.0/"),
     ("reproduce", "允许，需署名"),
     ("derive", "禁止"),
     ("commercial", "禁止")])]

/-- Modelled from the spec: `SOFTWARE_LICENSES` from
`src/license/constants.py` (not in the provided sources). Per spec §3/§6 a
static mapping keyed by canonical name, each entry carrying `url` and
`full_text`. -/
def SOFTWARE_LICENSES : List (String × StrMap) := [
  ("MIT",
    [("url", "https://opensource.org/license/mit/"),
     ("attribution", "保留版权声明"),
     ("full_text", "软件按原样提供，不附带任何担保。")]),
  ("GPL-3.0",
    [("url", "https://www.gnu.org/licenses/gpl-3.0.html"),
     ("attribution", "保留版权声明"),
     ("full_text", "衍生软件必须以相同许可证发布。")])]

/-! ## `_format_links_in_text` (lines 12-43): the bare-URL beautifier

The regex `(?<!\]\()(https?://[^\s<>()]+)` is embedded as a left-to-right
scanner: at each position the two previously consumed characters play the
role of the negative lookbehind, `matchScheme` plays `https?://`, and a
maximal run of `[^\s<>()]` characters completes a match. `scanBoth` carries
fuel (any amount at least the input length) so it evaluates inside the
kernel; it returns the rewritten text together with the list of matched
URLs (what `re.sub` passes to `replacer`). -/

/-- The `[^\s<>()]` character class. -/
def isUrlChar (c : Char) : Bool :=
  !(pyIsSpace c) && !(c = '<') && !(c = '>') && !(c = '(') && !(c = ')')

/-- `https?://` at the head of the input: the consumed scheme and the rest. -/
def matchScheme : List Char → Option (List Char × List Char)
  | 'h' :: 't' :: 't' :: 'p' :: 's' :: ':' :: '/' :: '/' :: rest =>
      some ("https://".data, rest)
  | 'h' :: 't' :: 't' :: 'p' :: ':' :: '/' :: '/' :: rest =>
      some ("http://".data, rest)
  | _ => none

/-- The fixed friendly label for links containing `discord.com/`. -/
def DISCORD_LABEL : String := "「点击查看 Discord 链接内容」"

/-- `re.sub(r'^https?://', '', url)` (line 36). -/
def stripScheme (url : List Char) : List Char :=
  if "https://".data.isPrefixOf url then url.drop 8
  else if "http://".data.isPrefixOf url then url.drop 7
  else url

/-- Remove one trailing slash (lines 38-39). -/
def trimSlash (t : List Char) : List Char :=
  if t.getLast? = some '/' then t.dropLast else t

/-- The `replacer` callback (lines 23-40). -/
def replacer (url : List Char) : List Char :=
  if occursB "discord.com/".data url then
    '[' :: DISCORD_LABEL.data ++ "](".data ++ url ++ [')']
  else
    '[' :: trimSlash (stripScheme url) ++ "](".data ++ url ++ [')']

/-- Advance the lookbehind window (the last two consumed characters) over
a block of consumed characters. -/
def advCtx (p : Option Char × Option Char) (cs : List Char) : Option Char × Option Char :=
  cs.foldl (fun q c => (q.2, some c)) p

/-- The characters that can occur in `http://` / `https://`. -/
def schemeChars : List Char := ['h', 't', 'p', 's', ':', '/']

/-- Does a scheme (`http://` or `https://`) occur anywhere in the text? -/
def hasScheme (cs : List Char) : Bool :=
  occursB "http://".data cs || occursB "https://".data cs

/-- A matched URL is *tame* when it contains no `]` and no second scheme
after its first character. Outside this class the rewriting is not
idempotent (see the counterexamples): a `]`-ending match changes the
lookbehind context of a following blocked URL, and an embedded scheme
reappears un-blocked inside the generated link label. -/
def goodUrl (u : List Char) : Bool :=
  !(u.contains ']') && !(hasScheme u.tail)

/-- The relation between the lookbehind windows of the first and second
scan passes at aligned positions: they agree on being exactly `](`, and on
whether the previous character is `]`. -/
def Rctx (p q : Option Char × Option Char) : Prop :=
  ((p.1 = some ']' ∧ p.2 = some '(') ↔ (q.1 = some ']' ∧ q.2 = some '(')) ∧
  (p.2 = some ']' ↔ q.2 = some ']')

/-- The `re.sub` scan. `p2`/`p1` are the characters two/one positions
before the current one (`none` near the start of the string); the
lookbehind `(?<!\]\()` forbids a match exactly when they are `](`.
Returns (rewritten text, list of matched URLs in order). -/
def scanBoth : Nat → Option Char → Option Char → List Char → List Char × List (List Char)
  | _, _, _, [] => ([], [])
  | 0, _, _, cs => (cs, [])
  | fuel + 1, p2, p1, c :: rest =>
      match matchScheme (c :: rest) with
      | some (w, after) =>
          let run := after.takeWhile isUrlChar
          if run = [] ∨ (p2 = some ']' ∧ p1 = some '(') then
            let r := scanBoth fuel p1 (some c) rest
            (c :: r.1, r.2)
          else
            let url := w ++ run
            let q := advCtx (p2, p1) url
            let r := scanBoth fuel q.1 q.2 (after.dropWhile isUrlChar)
            (replacer url ++ r.1, url :: r.2)
      | none =>
          let r := scanBoth fuel p1 (some c) rest
          (c :: r.1, r.2)

/-- `_format_links_in_text` (lines 12-43). -/
def _format_links_in_text (text : String) : String :=
  if text = "" then text
  else ⟨(scanBoth text.data.length none none text.data).1⟩

/-- The URLs the scan of `_format_links_in_text` matches (and hands to
`replacer`), in order. -/
def urlMatches (text : String) : List (List Char) :=
  if text = "" then []
  else (scanBoth text.data.length none none text.data).2

/-! ## `build_license_embeds` (lines 184-357)

The function is split into named stages mirroring the source blocks:
`resolvePolicy` (lines 196-234, the policy check and auto-downgrade),
`overlayCatalog` (lines 237-242), `substitutePlaceholders` (lines 244-257),
then the embed assembly. `Option` models the `KeyError` a Python `d[k]`
index would raise. -/

/-- The state after lines 196-234: the (copied) details dict after any
downgrade overrides, plus the local variables of the source. -/
structure ResolveState where
  saved : StrMap
  licenseType : String
  isCC : Bool
  isSoftware : Bool
  warning : Option String
deriving DecidableEq

/-- The warning text of lines 230-234. -/
def downgradeWarning (original new : String) : String :=
  "**⚠️ 协议已自动调整**\n由于本服务器禁止商业用途，您误选择的协议 **" ++ original ++
  "** 已被自动调整为 **" ++ new ++ "**。"

/-- Lines 196-234: policy check and auto-downgrade. `saved_details` is the
copy taken on line 196. -/
def resolvePolicy (saved_details : StrMap) (commercial_use_allowed : Bool) : ResolveState :=
  let license_type := mgetD saved_details "type" "custom"
  let is_cc := (lookupS CC_LICENSES license_type).isSome
  let is_software := (lookupS SOFTWARE_LICENSES license_type).isSome
  if commercial_use_allowed then
    ⟨saved_details, license_type, is_cc, is_software, none⟩
  else if license_type = "custom" then
    ⟨msetKey saved_details "commercial" "禁止", license_type, is_cc, is_software, none⟩
  else if is_cc && !(strContains license_type "NC") then
    let potential := strReplace license_type "CC BY" "CC BY-NC"
    if (lookupS CC_LICENSES potential).isSome then
      ⟨msetKey saved_details "type" potential, potential, true, is_software,
       some (downgradeWarning license_type potential)⟩
    else
      ⟨msetKey (msetKey saved_details "type" "custom") "commercial" "禁止",
       "custom", false, is_software,
       some (downgradeWarning license_type "custom")⟩
  else
    ⟨saved_details, license_type, is_cc, is_software, none⟩

/-- Lines 237-242: overlay the catalog entry for the effective type
(`CC_LICENSES[license_type]` / `SOFTWARE_LICENSES[license_type]` would
raise on a missing key, hence `Option`). -/
def overlayCatalog (st : ResolveState) : Option StrMap :=
  if st.isCC then
    (lookupS CC_LICENSES st.licenseType).map (fun e => mupdate st.saved e)
  else if st.isSoftware then
    (lookupS SOFTWARE_LICENSES st.licenseType).map (fun e => mupdate st.saved e)
  else some st.saved

/-- The core of `value.format(license_type=repl)` (line 257), embedded on
the fragment where CPython's result is determined by the template alone:
literal text, `{{`/`}}` brace escapes, and plain `{license_type}`
replacement fields (escapes collapse to single braces, every replacement
field becomes `repl`, inserted verbatim). `none` covers every other brace
construct: a lone `{` or `}` and an unknown field name make CPython raise
(`ValueError`/`KeyError`), while conversions (`{license_type!r}`), format
specs (`{license_type:>5}`) and attribute/index access on the field are
outside the modelled fragment — so a `some` result is value-exact, and no
theorem may conclude from `none` that the program raises. -/
def pyFmtCore (repl : List Char) : List Char → Option (List Char)
  | [] => some []
  | '{' :: '{' :: rest => (pyFmtCore repl rest).map (fun t => '{' :: t)
  | '}' :: '}' :: rest => (pyFmtCore repl rest).map (fun t => '}' :: t)
  | '{' :: 'l' :: 'i' :: 'c' :: 'e' :: 'n' :: 's' :: 'e' :: '_' :: 't' :: 'y' :: 'p' ::
      'e' :: '}' :: rest => (pyFmtCore repl rest).map (fun t => repl ++ t)
  | '{' :: _ => none
  | '}' :: _ => none
  | c :: rest => (pyFmtCore repl rest).map (fun t => c :: t)

/-- `value.format(license_type=repl)` as used on the term templates
(line 257); see `pyFmtCore` for the modelled fragment. -/
def pyFormatLicenseType (template value : String) : Option String :=
  (pyFmtCore value.data template.data).map (fun l => ⟨l⟩)

/-- One iteration of the loop on lines 255-257: if `k` is present, format
its value (every value in a `StrMap` is a string, so the `isinstance`
guard of line 256 always passes); a failing format raises, aborting the
whole build. -/
def substStep (repl : String) : Option StrMap → String → Option StrMap
  | none, _ => none
  | some m, k =>
      match mget? m k with
      | some v =>
          match pyFormatLicenseType v repl with
          | some fv => some (msetKey m k fv)
          | none => none
      | none => some m

/-- Lines 254-257: fill the same-license hole in the three core terms. -/
def substitutePlaceholders (display : StrMap) (repl : String) : Option StrMap :=
  ["reproduce", "derive", "commercial"].foldl (substStep repl) (some display)

/-- Lines 237-257: the final `display_details` dict; `none` when a term
template makes line 257 raise (or leaves the modelled fragment). -/
def displayDetails (st : ResolveState) : Option StrMap :=
  (overlayCatalog st).bind (fun d =>
    substitutePlaceholders d (if st.isCC then st.licenseType else "相同的条款"))

/-- Lines 259-269: the description lines of the main embed. -/
def descriptionParts (st : ResolveState) (display : StrMap) (author : Member) :
    Option (List String) :=
  let tail : Option (List String) :=
    if st.isCC then
      (mget? display "url").map (fun u =>
        ["本内容采用 **[" ++ st.licenseType ++ "](" ++ u ++ ")** 国际许可协议进行许可。"])
    else if st.isSoftware then
      (mget? display "url").map (fun u =>
        ["本项目采用 **[" ++ st.licenseType ++ "](" ++ u ++ ")** 开源许可证。"])
    else some []
  tail.map (fun t =>
    ("**发布者: ** " ++ author.mention) :: t ++
      (match st.warning with
       | some w => ["\n> " ++ w]
       | none => []))

/-- Lines 288-300: the structured core-term fields. -/
def mainFields (st : ResolveState) (display : StrMap) : Option (List EmbedField) :=
  if st.isSoftware then
    (mget? display "full_text").map (fun ft =>
      [⟨"📄 协议类型", "**" ++ st.licenseType ++ "** (软件)", false⟩,
       ⟨"✒️ 版权归属", _format_links_in_text (mgetD display "attribution" "未设置"), false⟩,
       ⟨"📜 核心条款", ft, false⟩])
  else
    some
      [⟨"📄 协议类型",
        if st.isCC then "**" ++ st.licenseType ++ "**" else "**自定义协议**", false⟩,
       ⟨"✒️ 作者署名", _format_links_in_text (mgetD display "attribution" "未设置"), false⟩,
       ⟨"🔁 二次传播", _format_links_in_text (mgetD display "reproduce" "未设置"), true⟩,
       ⟨"🎨 二次创作", _format_links_in_text (mgetD display "derive" "未设置"), true⟩,
       ⟨"💰 商业用途", _format_links_in_text (mgetD display "commercial" "未设置"), true⟩]

/-- Lines 302-307: the optional additional-terms field. -/
def notesFields (st : ResolveState) (display : StrMap) : List EmbedField :=
  if st.isCC then []
  else
    match mget? display "notes" with
    | some n =>
        if keepFreeText n then
          [⟨"📝 附加条款 (如无另外声明，其效力范围同本协议)", _format_links_in_text n, false⟩]
        else []
    | none => []

/-- Line 311: the width stretcher (a space plus 30 braille blanks). -/
def STRETCHER : String := String.mk (' ' :: List.replicate 30 (Char.ofNat 0x2800))

/-- Lines 314-315: the footer text before the stretcher. -/
def footerText (footer_override : Option String) : String :=
  footer_override.getD
    (SIGNATURE_LICENSE ++ " | 在自己的帖子里，使用 `/" ++ CMD_GROUP_NAME ++ "` 来使用我吧！")

/-- Lines 171-176 (`_EFFECTIVENESS_RULES_TEXT`). -/
def EFFECTIVENESS_RULES_TEXT : String :=
  "👑 **作者说了算**：作者在任何地方的**亲口声明**或**操作**，其效力**永远高于**本协议。" ++
    SIGNATURE_HELPER ++ "仅提供方便工具，作者保留所有的解释权。\n" ++
  "🤝 **关于单独授权**：无论本协议如何规定，从**作者**得到的**单独授权**可以不受本协议限制。\n" ++
  "🔄 **默认覆盖**：为方便作者管理并避免信息混淆，若无作者额外声明，发布新协议将自动取代**由" ++
    SIGNATURE_HELPER ++ "发布的**旧协议。\n" ++
  "> **⚠️ 请注意**：从法律上讲，对那些在旧协议有效期内**已经获取**作品的人，其授权通常不可撤销。尽管如此，我们倡导所有用户尊重作者的意愿。"

/-- Lines 177-181 (`_CC_DISCLAIMER_TEXT`). -/
def CC_DISCLAIMER_TEXT : String :=
  "**⚠️ 关于CC协议的特别说明**\n" ++
  "如果创作者在任何地方对本协议添加了**额外规则**，那么这份协议就不再是**标准CC协议**了。\n" ++
  "它会变成一份**“长得像CC协议的自定义协议”**，其中的CC链接仅用于解释基础条款。"

/-- Lines 322-340: the appendix embed. -/
def appendixEmbed (st : ResolveState) : Embed :=
  { title := some "⚖️ 协议生效规则",
    description := some (String.intercalate "\n"
      ([EFFECTIVENESS_RULES_TEXT] ++
        if st.isCC then ["\n\n" ++ CC_DISCLAIMER_TEXT] else [])),
    color := DColor.lightGrey,
    author_name := none, author_icon_url := none, fields := [], footer := none }

/-- Lines 342-355: the optional postscript embed. -/
def postscriptEmbeds (display : StrMap) : List Embed :=
  match mget? display "personal_statement" with
  | some ps =>
      if keepFreeText ps then
        [{ title := some "📣 附言 (无法律效力)", description := some ps,
           color := DColor.blue,
           author_name := none, author_icon_url := none, fields := [], footer := none }]
      else []
  | none => []

/-- `build_license_embeds` (lines 184-357). `none` models an uncaught
exception: a `KeyError` from `display_details['url']` /
`display_details['full_text']`, or a failing line-257 `str.format`
(see `pyFmtCore`). -/
def build_license_embeds (config : LicenseConfig) (author : Member)
    (commercial_use_allowed : Bool) (title_override footer_override : Option String)
    (include_appendix : Bool) : Option (List Embed) :=
  let st := resolvePolicy config.license_details commercial_use_allowed
  match displayDetails st with
  | none => none
  | some display =>
      match descriptionParts st display author, mainFields st display with
      | some parts, some fs =>
          let main : Embed :=
            { title := some (title_override.getD "📜 内容授权协议"),
              description :=
                if parts = [] then none else some (String.intercalate "\n" parts),
              color := if st.warning = none then DColor.gold else DColor.orange,
              author_name :=
                some ("由 " ++ author.display_name ++ " (" ++ author.name ++ ") 发布"),
              author_icon_url := some author.display_avatar_url,
              fields := fs ++ notesFields st display,
              footer := some (footerText footer_override ++ STRETCHER) }
          some ([main] ++ (if include_appendix then [appendixEmbed st] else []) ++
                postscriptEmbeds display)
      | _, _ => none

/-- The value of a named field of an embed, if present. -/
def fieldValue (e : Embed) (n : String) : Option String :=
  (e.fields.find? (fun f => f.name = n)).map (fun f => f.value)

/-! ## A heap model for the copy on line 196 (claim C8)

To state that `build_license_embeds` never mutates the caller's stored
`license_details`, Python object identity is made explicit: a heap is a
list of dict objects, a dict-valued variable is an index into it, and
`.copy()` allocates a fresh cell. Every dict write in lines 196-257 goes
through the variable `saved_details` (`display_details` on line 237 is an
alias of the same object, not a copy), so every write hits the freshly
allocated cell. -/

/-- Dereference a dict variable. -/
def heapGet (h : List StrMap) (i : Nat) : StrMap := h.getD i []

/-- One iteration of the substitution loop in the heap model: a
successful format writes the display cell; a failing format raises, so
the flag is set and no later statement writes anything. -/
def heapSubstStep (displayIx : Nat) (repl : String) (s : List StrMap × Bool)
    (k : String) : List StrMap × Bool :=
  if s.2 then s
  else
    match mget? (heapGet s.1 displayIx) k with
    | none => s
    | some v =>
        match pyFormatLicenseType v repl with
        | some fv => (s.1.set displayIx (msetKey (heapGet s.1 displayIx) k fv), false)
        | none => (s.1, true)

/-- Lines 196-257 with explicit object identity: returns the final heap
and the index `display_details` refers to. The catalog overlay reads with
a default because `is_cc` / `is_software` guarantee the key is present. -/
def heapResolveDisplay (heap : List StrMap) (cfgIx : Nat)
    (commercial_use_allowed : Bool) : List StrMap × Nat :=
  -- line 196: saved_details = config.license_details.copy()
  let savedIx := heap.length
  let h1 := heap ++ [heapGet heap cfgIx]
  let license_type := mgetD (heapGet h1 savedIx) "type" "custom"
  let is_cc := (lookupS CC_LICENSES license_type).isSome
  let is_software := (lookupS SOFTWARE_LICENSES license_type).isSome
  -- lines 204-234
  let resolved : List StrMap × String × Bool :=
    if commercial_use_allowed then (h1, license_type, is_cc)
    else if license_type = "custom" then
      (h1.set savedIx (msetKey (heapGet h1 savedIx) "commercial" "禁止"),
       license_type, is_cc)
    else if is_cc && !(strContains license_type "NC") then
      let potential := strReplace license_type "CC BY" "CC BY-NC"
      if (lookupS CC_LICENSES potential).isSome then
        (h1.set savedIx (msetKey (heapGet h1 savedIx) "type" potential), potential, true)
      else
        let h2 := h1.set savedIx (msetKey (heapGet h1 savedIx) "type" "custom")
        (h2.set savedIx (msetKey (heapGet h2 savedIx) "commercial" "禁止"), "custom", false)
    else (h1, license_type, is_cc)
  let h3 := resolved.1
  let lt' := resolved.2.1
  let is_cc' := resolved.2.2
  -- line 237: display_details = saved_details (the same object)
  let displayIx := savedIx
  -- lines 239-242
  let h4 :=
    if is_cc' then
      h3.set displayIx (mupdate (heapGet h3 displayIx) ((lookupS CC_LICENSES lt').getD []))
    else if is_software then
      h3.set displayIx (mupdate (heapGet h3 displayIx) ((lookupS SOFTWARE_LICENSES lt').getD []))
    else h3
  -- lines 246-257 (on a format error the heap freezes at the raise)
  let repl := if is_cc' then lt' else "相同的条款"
  let h5 := ["reproduce", "derive", "commercial"].foldl
    (heapSubstStep displayIx repl) (h4, false)
  (h5.1, displayIx)

/-- A concrete author used by the witnesses. -/
def sampleAuthor : Member :=
  ⟨"<@42>", "Alice", "alice", "https://cdn.example.net/a.png"⟩

/-- Concrete configurations used by witnesses and counterexamples. -/
def cfgCCBY : LicenseConfig := ⟨[("type", "CC BY 4.0")], true, true, true⟩

def cfgNC : LicenseConfig :=
  ⟨[("type", "CC BY-NC 4.0"), ("personal_statement", "谢谢阅读")], true, false, true⟩

def cfgCustom : LicenseConfig :=
  ⟨[("type", "custom"), ("commercial", "收费可用"), ("reproduce", "需 {license_type} 授权")],
   false, true, true⟩

def cfgUnknown : LicenseConfig := ⟨[("type", "foobar"), ("commercial", "随意")], true, true, true⟩

def cfgEsc : LicenseConfig :=
  ⟨[("type", "custom"), ("reproduce", "遵循 {{license_type}} 条款")], true, true, true⟩

def cfgMIT : LicenseConfig := ⟨[("type", "MIT")], true, true, true⟩

/-- Does the display dict carry a postscript the module will render
(non-empty, non-placeholder `personal_statement`, lines 343-345)? -/
def hasPostscript (display : StrMap) : Bool :=
  match mget? display "personal_statement" with
  | some ps => keepFreeText ps
  | none => false

/-- A default embed used only to state witnesses without existentials. -/
def emptyEmbed : Embed := ⟨none, none, DColor.gold, none, none, [], none⟩

/-- The 协议类型 field value of the first (main) embed of a result, used to
state counterexamples without existential quantifiers. -/
def mainFieldOf (r : Option (List Embed)) (n : String) : Option String :=
  match r with
  | some (m :: _) => fieldValue m n
  | _ => none

/-! ## Basic lemmas about the dict model -/

theorem mget?_msetKey_self (m : StrMap) (k v : String) :
    mget? (msetKey m k v) k = some v := by
  induction m with
  | nil => simp [msetKey, mget?]
  | cons kv rest ih =>
      obtain ⟨k', v'⟩ := kv
      by_cases h : k' = k
      · simp [msetKey, h, mget?]
      · simp [msetKey, h, mget?, ih]

theorem mget?_msetKey_ne (m : StrMap) {k' k : String} (v : String) (hne : k' ≠ k) :
    mget? (msetKey m k' v) k = mget? m k := by
  induction m with
  | nil => simp [msetKey, mget?, hne]
  | cons kv rest ih =>
      obtain ⟨k0, v0⟩ := kv
      by_cases h : k0 = k'
      · subst h
        simp [msetKey, mget?, hne]
      · simp only [msetKey, h, if_false, mget?]
        by_cases h2 : k0 = k <;> simp [h2, ih]

theorem mupdate_nil (m : StrMap) : mupdate m [] = m := rfl

theorem mupdate_cons (m : StrMap) (k v : String) (e : StrMap) :
    mupdate m ((k, v) :: e) = mupdate (msetKey m k v) e := rfl

theorem substStep_none (r : String) (k : String) : substStep r none k = none := rfl

theorem substStep_some_elim {r : String} {m m' : StrMap} {k : String}
    (h : substStep r (some m) k = some m') :
    (mget? m k = none ∧ m' = m) ∨
    (∃ v fv, mget? m k = some v ∧ pyFormatLicenseType v r = some fv ∧
      m' = msetKey m k fv) := by
  simp only [substStep] at h
  split at h
  · rename_i v hk
    split at h
    · rename_i fv hf
      exact Or.inr ⟨v, fv, hk, hf, (Option.some.inj h).symm⟩
    · exact Option.noConfusion h
  · rename_i hk
    exact Or.inl ⟨hk, (Option.some.inj h).symm⟩

theorem subst_eq_steps (m : StrMap) (r : String) :
    substitutePlaceholders m r =
      substStep r (substStep r (substStep r (some m) "reproduce") "derive")
        "commercial" := rfl

/-- A successful substitution decomposes into three successful steps. -/
theorem subst_some_elim {m : StrMap} {r : String} {m' : StrMap}
    (h : substitutePlaceholders m r = some m') :
    ∃ m1 m2, substStep r (some m) "reproduce" = some m1 ∧
      substStep r (some m1) "derive" = some m2 ∧
      substStep r (some m2) "commercial" = some m' := by
  rw [subst_eq_steps] at h
  cases h1 : substStep r (some m) "reproduce" with
  | none =>
      rw [h1, substStep_none, substStep_none] at h
      exact Option.noConfusion h
  | some m1 =>
      rw [h1] at h
      cases h2 : substStep r (some m1) "derive" with
      | none =>
          rw [h2, substStep_none] at h
          exact Option.noConfusion h
      | some m2 =>
          rw [h2] at h
          exact ⟨m1, m2, rfl, h2, h⟩

theorem substStep_mget?_ne {r : String} {m m' : StrMap} {k' : String}
    (h : substStep r (some m) k' = some m') {k : String} (hne : k' ≠ k) :
    mget? m' k = mget? m k := by
  rcases substStep_some_elim h with ⟨-, rfl⟩ | ⟨v, fv, -, -, rfl⟩
  · rfl
  · exact mget?_msetKey_ne _ _ hne

theorem substStep_mget?_self {r : String} {m m' : StrMap} {k : String}
    (h : substStep r (some m) k = some m') {v : String}
    (hv : mget? m k = some v) :
    ∃ fv, pyFormatLicenseType v r = some fv ∧ mget? m' k = some fv := by
  rcases substStep_some_elim h with ⟨hn, rfl⟩ | ⟨v2, fv, hv2, hf, rfl⟩
  · rw [hv] at hn
    exact Option.noConfusion hn
  · rw [hv] at hv2
    cases Option.some.inj hv2
    exact ⟨fv, hf, mget?_msetKey_self _ _ _⟩

theorem mget?_subst_reproduce {m m' : StrMap} {r : String}
    (h : substitutePlaceholders m r = some m') {v : String}
    (hv : mget? m "reproduce" = some v) :
    ∃ fv, pyFormatLicenseType v r = some fv ∧ mget? m' "reproduce" = some fv := by
  obtain ⟨m1, m2, s1, s2, s3⟩ := subst_some_elim h
  obtain ⟨fv, hf, h1⟩ := substStep_mget?_self s1 hv
  refine ⟨fv, hf, ?_⟩
  rw [substStep_mget?_ne s3 (by decide), substStep_mget?_ne s2 (by decide)]
  exact h1

theorem mget?_subst_derive {m m' : StrMap} {r : String}
    (h : substitutePlaceholders m r = some m') {v : String}
    (hv : mget? m "derive" = some v) :
    ∃ fv, pyFormatLicenseType v r = some fv ∧ mget? m' "derive" = some fv := by
  obtain ⟨m1, m2, s1, s2, s3⟩ := subst_some_elim h
  have hv1 : mget? m1 "derive" = some v := by
    rw [substStep_mget?_ne s1 (by decide)]
    exact hv
  obtain ⟨fv, hf, h1⟩ := substStep_mget?_self s2 hv1
  refine ⟨fv, hf, ?_⟩
  rw [substStep_mget?_ne s3 (by decide)]
  exact h1

theorem mget?_subst_commercial {m m' : StrMap} {r : String}
    (h : substitutePlaceholders m r = some m') {v : String}
    (hv : mget? m "commercial" = some v) :
    ∃ fv, pyFormatLicenseType v r = some fv ∧ mget? m' "commercial" = some fv := by
  obtain ⟨m1, m2, s1, s2, s3⟩ := subst_some_elim h
  have hv1 : mget? m1 "commercial" = some v := by
    rw [substStep_mget?_ne s1 (by decide)]
    exact hv
  have hv2 : mget? m2 "commercial" = some v := by
    rw [substStep_mget?_ne s2 (by decide)]
    exact hv1
  exact substStep_mget?_self s3 hv2

theorem mget?_subst_other {m m' : StrMap} {r : String}
    (h : substitutePlaceholders m r = some m') (k : String)
    (h1 : k ≠ "reproduce") (h2 : k ≠ "derive") (h3 : k ≠ "commercial") :
    mget? m' k = mget? m k := by
  obtain ⟨m1, m2, s1, s2, s3⟩ := subst_some_elim h
  rw [substStep_mget?_ne s3 (Ne.symm h3), substStep_mget?_ne s2 (Ne.symm h2),
    substStep_mget?_ne s1 (Ne.symm h1)]

/-! ## Lemmas about the catalogs and the resolver -/

theorem cc_key_cases {k : String} (h : (lookupS CC_LICENSES k).isSome = true) :
    k = "CC BY 4.0" ∨ k = "CC BY-SA 4.0" ∨ k = "CC BY-NC 4.0" ∨
    k = "CC BY-NC-SA 4.0" ∨ k = "CC BY-ND 4.0" ∨ k = "CC BY-NC-ND 4.0" := by
  simp only [CC_LICENSES, lookupS] at h
  split_ifs at h with h1 h2 h3 h4 h5 h6
  · exact Or.inl h1
  · exact Or.inr (Or.inl h2)
  · exact Or.inr (Or.inr (Or.inl h3))
  · exact Or.inr (Or.inr (Or.inr (Or.inl h4)))
  · exact Or.inr (Or.inr (Or.inr (Or.inr (Or.inl h5))))
  · exact Or.inr (Or.inr (Or.inr (Or.inr (Or.inr h6))))
  · simp at h

theorem sw_key_cases {k : String} (h : (lookupS SOFTWARE_LICENSES k).isSome = true) :
    k = "MIT" ∨ k = "GPL-3.0" := by
  simp only [SOFTWARE_LICENSES, lookupS] at h
  split_ifs at h with h1 h2
  · exact Or.inl h1
  · exact Or.inr h2
  · simp at h

theorem catalogs_disjoint {k : String} (h1 : (lookupS CC_LICENSES k).isSome = true)
    (h2 : (lookupS SOFTWARE_LICENSES k).isSome = true) : False := by
  rcases cc_key_cases h1 with h | h | h | h | h | h <;> subst h <;>
    exact absurd h2 (by decide)

theorem cc_entry_url {k : String} {e : StrMap} (h : lookupS CC_LICENSES k = some e) :
    ∃ u, mget? e "url" = some u := by
  simp only [CC_LICENSES, lookupS] at h
  split_ifs at h <;> cases h <;> exact ⟨_, rfl⟩

theorem sw_entry_url {k : String} {e : StrMap} (h : lookupS SOFTWARE_LICENSES k = some e) :
    ∃ u, mget? e "url" = some u := by
  simp only [SOFTWARE_LICENSES, lookupS] at h
  split_ifs at h <;> cases h <;> exact ⟨_, rfl⟩

theorem sw_entry_full_text {k : String} {e : StrMap}
    (h : lookupS SOFTWARE_LICENSES k = some e) :
    ∃ t, mget? e "full_text" = some t := by
  simp only [SOFTWARE_LICENSES, lookupS] at h
  split_ifs at h <;> cases h <;> exact ⟨_, rfl⟩

/-- Exhaustive case analysis of the resolver (lines 196-234): the five
branches, each with the conditions that select it and the state it
produces. -/
theorem resolvePolicy_cases (d : StrMap) (b : Bool) :
    (b = true ∧ resolvePolicy d b =
      ⟨d, mgetD d "type" "custom",
       (lookupS CC_LICENSES (mgetD d "type" "custom")).isSome,
       (lookupS SOFTWARE_LICENSES (mgetD d "type" "custom")).isSome, none⟩) ∨
    (b = false ∧ mgetD d "type" "custom" = "custom" ∧ resolvePolicy d b =
      ⟨msetKey d "commercial" "禁止", mgetD d "type" "custom",
       (lookupS CC_LICENSES (mgetD d "type" "custom")).isSome,
       (lookupS SOFTWARE_LICENSES (mgetD d "type" "custom")).isSome, none⟩) ∨
    (b = false ∧ mgetD d "type" "custom" ≠ "custom" ∧
     (lookupS CC_LICENSES (mgetD d "type" "custom")).isSome = true ∧
     strContains (mgetD d "type" "custom") "NC" = false ∧
     (lookupS CC_LICENSES (strReplace (mgetD d "type" "custom") "CC BY" "CC BY-NC")).isSome
       = true ∧
     resolvePolicy d b =
      ⟨msetKey d "type" (strReplace (mgetD d "type" "custom") "CC BY" "CC BY-NC"),
       strReplace (mgetD d "type" "custom") "CC BY" "CC BY-NC", true,
       (lookupS SOFTWARE_LICENSES (mgetD d "type" "custom")).isSome,
       some (downgradeWarning (mgetD d "type" "custom")
         (strReplace (mgetD d "type" "custom") "CC BY" "CC BY-NC"))⟩) ∨
    (b = false ∧ mgetD d "type" "custom" ≠ "custom" ∧
     (lookupS CC_LICENSES (mgetD d "type" "custom")).isSome = true ∧
     strContains (mgetD d "type" "custom") "NC" = false ∧
     (lookupS CC_LICENSES (strReplace (mgetD d "type" "custom") "CC BY" "CC BY-NC")).isSome
       = false ∧
     resolvePolicy d b =
      ⟨msetKey (msetKey d "type" "custom") "commercial" "禁止", "custom", false,
       (lookupS SOFTWARE_LICENSES (mgetD d "type" "custom")).isSome,
       some (downgradeWarning (mgetD d "type" "custom") "custom")⟩) ∨
    (b = false ∧ mgetD d "type" "custom" ≠ "custom" ∧
     ((lookupS CC_LICENSES (mgetD d "type" "custom")).isSome = false ∨
      strContains (mgetD d "type" "custom") "NC" = true) ∧
     resolvePolicy d b =
      ⟨d, mgetD d "type" "custom",
       (lookupS CC_LICENSES (mgetD d "type" "custom")).isSome,
       (lookupS SOFTWARE_LICENSES (mgetD d "type" "custom")).isSome, none⟩) := by
  by_cases hb : b = true
  · exact Or.inl ⟨hb, by unfold resolvePolicy; rw [hb]; simp⟩
  · have hb' : b = false := by cases b <;> simp_all
    by_cases hc : mgetD d "type" "custom" = "custom"
    · refine Or.inr (Or.inl ⟨hb', hc, ?_⟩)
      unfold resolvePolicy
      rw [hb']
      simp [hc]
    · by_cases hcc : ((lookupS CC_LICENSES (mgetD d "type" "custom")).isSome &&
          !(strContains (mgetD d "type" "custom") "NC")) = true
      · obtain ⟨hcc1, hcc2⟩ := (Bool.and_eq_true _ _).mp hcc
        have hcc2' : strContains (mgetD d "type" "custom") "NC" = false := by
          revert hcc2
          cases strContains (mgetD d "type" "custom") "NC" <;> simp
        by_cases hpot : (lookupS CC_LICENSES
            (strReplace (mgetD d "type" "custom") "CC BY" "CC BY-NC")).isSome = true
        · refine Or.inr (Or.inr (Or.inl ⟨hb', hc, hcc1, hcc2', hpot, ?_⟩))
          unfold resolvePolicy
          rw [hb']
          simp [hc, hcc, hpot]
        · have hpot' : (lookupS CC_LICENSES
              (strReplace (mgetD d "type" "custom") "CC BY" "CC BY-NC")).isSome = false := by
            revert hpot
            cases (lookupS CC_LICENSES
              (strReplace (mgetD d "type" "custom") "CC BY" "CC BY-NC")).isSome <;> simp
          refine Or.inr (Or.inr (Or.inr (Or.inl ⟨hb', hc, hcc1, hcc2', hpot', ?_⟩)))
          unfold resolvePolicy
          rw [hb']
          simp [hc, hcc, hpot']
      · have hsplit : (lookupS CC_LICENSES (mgetD d "type" "custom")).isSome = false ∨
            strContains (mgetD d "type" "custom") "NC" = true := by
          revert hcc
          cases (lookupS CC_LICENSES (mgetD d "type" "custom")).isSome <;>
            cases strContains (mgetD d "type" "custom") "NC" <;> simp
        refine Or.inr (Or.inr (Or.inr (Or.inr ⟨hb', hc, hsplit, ?_⟩)))
        unfold resolvePolicy
        rw [hb']
        have hcc' : ((lookupS CC_LICENSES (mgetD d "type" "custom")).isSome &&
            !(strContains (mgetD d "type" "custom") "NC")) = false := by
          revert hcc
          cases (lookupS CC_LICENSES (mgetD d "type" "custom")).isSome <;>
            cases strContains (mgetD d "type" "custom") "NC" <;> simp
        simp [hc, hcc']

/-- In every branch of the resolver, `isCC` tracks membership of the
effective type in the CC catalog. -/
theorem resolve_isCC_lookup (d : StrMap) (b : Bool)
    (h : (resolvePolicy d b).isCC = true) :
    (lookupS CC_LICENSES (resolvePolicy d b).licenseType).isSome = true := by
  rcases resolvePolicy_cases d b with ⟨_, e⟩ | ⟨_, _, e⟩ | ⟨_, _, _, _, hpot, e⟩ |
    ⟨_, _, _, _, _, e⟩ | ⟨_, _, _, e⟩ <;> rw [e] at h ⊢ <;> simp_all

/-- In every branch of the resolver, `isSoftware` tracks membership of the
effective type in the software catalog. -/
theorem resolve_isSoftware_lookup (d : StrMap) (b : Bool)
    (h : (resolvePolicy d b).isSoftware = true) :
    (lookupS SOFTWARE_LICENSES (resolvePolicy d b).licenseType).isSome = true := by
  rcases resolvePolicy_cases d b with ⟨_, e⟩ | ⟨_, _, e⟩ | ⟨_, _, hcc, _, _, e⟩ |
    ⟨_, _, hcc, _, _, e⟩ | ⟨_, _, _, e⟩ <;> rw [e] at h ⊢ <;>
    first
      | exact h
      | exact (catalogs_disjoint hcc h).elim

/-- When commercial use is allowed the resolver passes everything through
unchanged (line 204 is not entered). -/
theorem resolvePolicy_true (d : StrMap) :
    resolvePolicy d true =
      ⟨d, mgetD d "type" "custom",
       (lookupS CC_LICENSES (mgetD d "type" "custom")).isSome,
       (lookupS SOFTWARE_LICENSES (mgetD d "type" "custom")).isSome, none⟩ := by
  unfold resolvePolicy
  simp

/-! ## Claims C1 and C2: the downgrade rule on CC licenses -/

/-- **C1.** For every details whose `type` is a CC-catalog identifier whose
name does not contain `"NC"`, the resolution step of `build_license_embeds`
under `commercial_use_allowed = false` switches the effective type to the
NC sibling obtained by the `"CC BY" → "CC BY-NC"` replacement when that
sibling is in the catalog, or else to `"custom"` with `commercial` forced
to `"禁止"`; a downgrade warning is recorded in both cases and the
effective type is never the original identifier. -/
theorem C1_noncommercial_cc_downgrade (cfg : LicenseConfig)
    (hcc : (lookupS CC_LICENSES (mgetD cfg.license_details "type" "custom")).isSome = true)
    (hnc : strContains (mgetD cfg.license_details "type" "custom") "NC" = false) :
    (((lookupS CC_LICENSES (resolvePolicy cfg.license_details false).licenseType).isSome
        = true ∧
      (resolvePolicy cfg.license_details false).licenseType =
        strReplace (mgetD cfg.license_details "type" "custom") "CC BY" "CC BY-NC") ∨
     ((resolvePolicy cfg.license_details false).licenseType = "custom" ∧
      mget? (resolvePolicy cfg.license_details false).saved "commercial" = some "禁止")) ∧
    (resolvePolicy cfg.license_details false).warning ≠ none ∧
    (resolvePolicy cfg.license_details false).licenseType ≠
      mgetD cfg.license_details "type" "custom" := by
  rcases resolvePolicy_cases cfg.license_details false with
    ⟨hb, _⟩ | ⟨_, hc, _⟩ | ⟨_, _, _, _, hpot, e⟩ | ⟨_, _, _, _, _, e⟩ | ⟨_, _, hsplit, _⟩
  · exact absurd hb (by decide)
  · rw [hc] at hcc
    exact absurd hcc (by decide)
  · have hlt : (resolvePolicy cfg.license_details false).licenseType =
        strReplace (mgetD cfg.license_details "type" "custom") "CC BY" "CC BY-NC" := by
      rw [e]
    have hw : (resolvePolicy cfg.license_details false).warning ≠ none := by
      rw [e]
      simp
    rw [hlt]
    refine ⟨Or.inl ⟨hpot, rfl⟩, hw, ?_⟩
    rcases cc_key_cases hcc with h | h | h | h | h | h <;> rw [h] at hnc ⊢ <;>
      first
        | exact absurd hnc (by decide)
        | decide
  · have hlt : (resolvePolicy cfg.license_details false).licenseType = "custom" := by
      rw [e]
    have hsa : mget? (resolvePolicy cfg.license_details false).saved "commercial" =
        some "禁止" := by
      rw [e]
      exact mget?_msetKey_self _ _ _
    have hw : (resolvePolicy cfg.license_details false).warning ≠ none := by
      rw [e]
      simp
    rw [hlt]
    refine ⟨Or.inr ⟨rfl, hsa⟩, hw, ?_⟩
    rcases cc_key_cases hcc with h | h | h | h | h | h <;> rw [h] <;> decide
  · rcases hsplit with h | h
    · rw [hcc] at h
      exact absurd h (by decide)
    · rw [hnc] at h
      exact absurd h (by decide)

/-- Witness for C1 at the concrete config `{"type": "CC BY 4.0"}`. -/
theorem C1_noncommercial_cc_downgrade_witness :
    ((lookupS CC_LICENSES (mgetD cfgCCBY.license_details "type" "custom")).isSome = true ∧
     strContains (mgetD cfgCCBY.license_details "type" "custom") "NC" = false) ∧
    ((((lookupS CC_LICENSES (resolvePolicy cfgCCBY.license_details false).licenseType).isSome
        = true ∧
      (resolvePolicy cfgCCBY.license_details false).licenseType =
        strReplace (mgetD cfgCCBY.license_details "type" "custom") "CC BY" "CC BY-NC") ∨
     ((resolvePolicy cfgCCBY.license_details false).licenseType = "custom" ∧
      mget? (resolvePolicy cfgCCBY.license_details false).saved "commercial" = some "禁止")) ∧
    (resolvePolicy cfgCCBY.license_details false).warning ≠ none ∧
    (resolvePolicy cfgCCBY.license_details false).licenseType ≠
      mgetD cfgCCBY.license_details "type" "custom") :=
  ⟨⟨by decide, by decide⟩, C1_noncommercial_cc_downgrade cfgCCBY (by decide) (by decide)⟩

/-- **C2.** For every details whose `type` is a CC-catalog identifier
already containing `"NC"`, disallowing commercial use changes nothing:
`build_license_embeds` returns exactly the embeds it returns when
commercial use is allowed, and no warning is recorded. -/
theorem C2_nc_noop (cfg : LicenseConfig) (author : Member)
    (t f : Option String) (inc : Bool)
    (hcc : (lookupS CC_LICENSES (mgetD cfg.license_details "type" "custom")).isSome = true)
    (hnc : strContains (mgetD cfg.license_details "type" "custom") "NC" = true) :
    build_license_embeds cfg author false t f inc =
      build_license_embeds cfg author true t f inc ∧
    (resolvePolicy cfg.license_details false).warning = none := by
  have hres : resolvePolicy cfg.license_details false =
      resolvePolicy cfg.license_details true := by
    rcases resolvePolicy_cases cfg.license_details false with
      ⟨hb, _⟩ | ⟨_, hc, _⟩ | ⟨_, _, _, hncF, _, _⟩ | ⟨_, _, _, hncF, _, _⟩ | ⟨_, _, _, e⟩
    · exact absurd hb (by decide)
    · rw [hc] at hcc
      exact absurd hcc (by decide)
    · rw [hnc] at hncF
      exact absurd hncF (by decide)
    · rw [hnc] at hncF
      exact absurd hncF (by decide)
    · rw [e, resolvePolicy_true]
  constructor
  · unfold build_license_embeds
    rw [hres]
  · rw [hres, resolvePolicy_true]

/-- Witness for C2 at `{"type": "CC BY-NC 4.0", "personal_statement": …}`. -/
theorem C2_nc_noop_witness :
    ((lookupS CC_LICENSES (mgetD cfgNC.license_details "type" "custom")).isSome = true ∧
     strContains (mgetD cfgNC.license_details "type" "custom") "NC" = true) ∧
    (build_license_embeds cfgNC sampleAuthor false none none true =
       build_license_embeds cfgNC sampleAuthor true none none true ∧
     (resolvePolicy cfgNC.license_details false).warning = none) :=
  ⟨⟨by decide, by decide⟩,
   C2_nc_noop cfgNC sampleAuthor none none true (by decide) (by decide)⟩

/-! ## Shape of a successful `build_license_embeds` call -/

/-- Any successful call decomposes into the three staged `Option`s and the
literal main/appendix/postscript assembly of lines 272-357. -/
theorem build_some_elim (cfg : LicenseConfig) (author : Member) (allowed : Bool)
    (t f : Option String) (inc : Bool) (es : List Embed)
    (h : build_license_embeds cfg author allowed t f inc = some es) :
    ∃ display parts fs,
      displayDetails (resolvePolicy cfg.license_details allowed) = some display ∧
      descriptionParts (resolvePolicy cfg.license_details allowed) display author
        = some parts ∧
      mainFields (resolvePolicy cfg.license_details allowed) display = some fs ∧
      es = [{ title := some (t.getD "📜 内容授权协议"),
              description :=
                if parts = [] then none else some (String.intercalate "\n" parts),
              color :=
                if (resolvePolicy cfg.license_details allowed).warning = none then
                  DColor.gold else DColor.orange,
              author_name :=
                some ("由 " ++ author.display_name ++ " (" ++ author.name ++ ") 发布"),
              author_icon_url := some author.display_avatar_url,
              fields := fs ++
                notesFields (resolvePolicy cfg.license_details allowed) display,
              footer := some (footerText f ++ STRETCHER) }] ++
           (if inc then [appendixEmbed (resolvePolicy cfg.license_details allowed)]
            else []) ++
           postscriptEmbeds display := by
  simp only [build_license_embeds] at h
  split at h
  · simp at h
  · split at h
    · rename_i x1 display hd x2 x3 parts fs hp hf
      exact ⟨display, parts, fs, hd, hp, hf, (Option.some.inj h).symm⟩
    · simp at h

/-- The resolver records a warning exactly when commercial use is
disallowed and the stored type is a non-NC CC-catalog identifier. -/
theorem resolve_warning_iff (d : StrMap) (b : Bool) :
    (resolvePolicy d b).warning ≠ none ↔
      (b = false ∧ (lookupS CC_LICENSES (mgetD d "type" "custom")).isSome = true ∧
       strContains (mgetD d "type" "custom") "NC" = false) := by
  rcases resolvePolicy_cases d b with
    ⟨hb, e⟩ | ⟨hb, hc, e⟩ | ⟨hb, hc, hcc, hnc, hpot, e⟩ |
    ⟨hb, hc, hcc, hnc, hpot, e⟩ | ⟨hb, hc, hsplit, e⟩ <;> rw [e]
  · simp [hb]
  · constructor
    · intro hfalse
      simp at hfalse
    · rintro ⟨-, hcc, -⟩
      rw [hc] at hcc
      exact absurd hcc (by decide)
  · simp [hb, hcc, hnc]
  · simp [hb, hcc, hnc]
  · constructor
    · intro hfalse
      simp at hfalse
    · rintro ⟨-, hcc, hnc⟩
      rcases hsplit with hx | hx
      · rw [hcc] at hx
        exact absurd hx (by decide)
      · rw [hnc] at hx
        exact absurd hx (by decide)

/-- Types outside both catalogs pass through the resolver untouched (no
downgrade, no warning, flags false). -/
theorem resolve_noncatalog (d : StrMap) (b : Bool)
    (hnb : (lookupS CC_LICENSES (mgetD d "type" "custom")).isSome = false)
    (hns : (lookupS SOFTWARE_LICENSES (mgetD d "type" "custom")).isSome = false) :
    (resolvePolicy d b).isCC = false ∧ (resolvePolicy d b).isSoftware = false ∧
    (resolvePolicy d b).warning = none ∧
    (resolvePolicy d b).licenseType = mgetD d "type" "custom" := by
  rcases resolvePolicy_cases d b with
    ⟨hb, e⟩ | ⟨hb, hc, e⟩ | ⟨hb, hc, hcc, hnc, hpot, e⟩ |
    ⟨hb, hc, hcc, hnc, hpot, e⟩ | ⟨hb, hc, hsplit, e⟩ <;> rw [e] <;> simp_all

/-! ## Claim C10: the main embed's color -/

/-- **C10.** The main (first) section's color hint is orange exactly when
an auto-downgrade warning was produced during resolution and gold
otherwise; and a warning is produced exactly for a non-NC CC-catalog type
under disallowed commercial use. -/
theorem C10_main_color (cfg : LicenseConfig) (author : Member) (allowed : Bool)
    (t f : Option String) (inc : Bool) (es : List Embed) (m : Embed)
    (h : build_license_embeds cfg author allowed t f inc = some es)
    (hm : es.head? = some m) :
    (m.color = DColor.orange ↔ (resolvePolicy cfg.license_details allowed).warning ≠ none) ∧
    (m.color = DColor.gold ↔ (resolvePolicy cfg.license_details allowed).warning = none) ∧
    ((resolvePolicy cfg.license_details allowed).warning ≠ none ↔
      (allowed = false ∧
       (lookupS CC_LICENSES (mgetD cfg.license_details "type" "custom")).isSome = true ∧
       strContains (mgetD cfg.license_details "type" "custom") "NC" = false)) := by
  obtain ⟨display, parts, fs, hd, hp, hf, hes⟩ := build_some_elim _ _ _ _ _ _ _ h
  subst hes
  simp only [List.cons_append, List.head?] at hm
  rw [Option.some.injEq] at hm
  subst hm
  refine ⟨?_, ?_, resolve_warning_iff _ _⟩ <;>
    cases hw : (resolvePolicy cfg.license_details allowed).warning <;> simp [hw]

set_option maxRecDepth 100000 in
/-- Witness for C10 at the downgraded `{"type": "CC BY 4.0"}` config. -/
theorem C10_main_color_witness :
    (build_license_embeds cfgCCBY sampleAuthor false none none true =
       some ((build_license_embeds cfgCCBY sampleAuthor false none none true).getD []) ∧
     ((build_license_embeds cfgCCBY sampleAuthor false none none true).getD []).head? =
       some ((((build_license_embeds cfgCCBY sampleAuthor false none none true).getD
         []).head?).getD emptyEmbed)) ∧
    (((((build_license_embeds cfgCCBY sampleAuthor false none none true).getD
         []).head?).getD emptyEmbed).color = DColor.orange ↔
       (resolvePolicy cfgCCBY.license_details false).warning ≠ none) ∧
    (((((build_license_embeds cfgCCBY sampleAuthor false none none true).getD
         []).head?).getD emptyEmbed).color = DColor.gold ↔
       (resolvePolicy cfgCCBY.license_details false).warning = none) ∧
    ((resolvePolicy cfgCCBY.license_details false).warning ≠ none ↔
      (false = false ∧
       (lookupS CC_LICENSES (mgetD cfgCCBY.license_details "type" "custom")).isSome = true ∧
       strContains (mgetD cfgCCBY.license_details "type" "custom") "NC" = false)) :=
  ⟨⟨by decide, by decide⟩,
   C10_main_color cfgCCBY sampleAuthor false none none true
     ((build_license_embeds cfgCCBY sampleAuthor false none none true).getD [])
     ((((build_license_embeds cfgCCBY sampleAuthor false none none true).getD
       []).head?).getD emptyEmbed)
     (by decide) (by decide)⟩

/-! ## Claim C3: custom and unrecognized types under disallowed commercial use -/

set_option maxRecDepth 100000 in
/-- **C3 counterexample.** The claim asserts that unrecognized identifiers
are treated like `"custom"` also for the commercial override. They are
not: for details `{"type": "foobar", "commercial": "随意"}` (a type in
neither catalog) under `commercial_use_allowed = false`, the rendered
commercial field keeps `"随意"` — only the literal type `"custom"` gets
`commercial` forced to `"禁止"` (line 206). The type is still rendered as
the custom category. -/
theorem C3_counterexample :
    (lookupS CC_LICENSES (mgetD cfgUnknown.license_details "type" "custom")).isSome
      = false ∧
    (lookupS SOFTWARE_LICENSES (mgetD cfgUnknown.license_details "type" "custom")).isSome
      = false ∧
    mainFieldOf (build_license_embeds cfgUnknown sampleAuthor false none none true)
      "📄 协议类型" = some "**自定义协议**" ∧
    mainFieldOf (build_license_embeds cfgUnknown sampleAuthor false none none true)
      "💰 商业用途" = some "随意" ∧
    mainFieldOf (build_license_embeds cfgUnknown sampleAuthor false none none true)
      "💰 商业用途" ≠ some "禁止" := by
  decide

/-- **C3 (amended).** Under `commercial_use_allowed = false`: no warning is
produced for `"custom"` or for types outside both catalogs, and both are
rendered as the custom license category (never rejected); the `commercial`
field is forced to `"禁止"` exactly when the stored type is literally
`"custom"` — an unrecognized identifier keeps its stored commercial text. -/
theorem C3_custom_forcing (cfg : LicenseConfig) (author : Member)
    (t f : Option String) (inc : Bool)
    (hnb : (lookupS CC_LICENSES (mgetD cfg.license_details "type" "custom")).isSome = false)
    (hns : (lookupS SOFTWARE_LICENSES (mgetD cfg.license_details "type" "custom")).isSome
      = false) :
    (resolvePolicy cfg.license_details false).warning = none ∧
    (mgetD cfg.license_details "type" "custom" = "custom" →
      mget? (resolvePolicy cfg.license_details false).saved "commercial" = some "禁止") ∧
    (mgetD cfg.license_details "type" "custom" ≠ "custom" →
      mget? (resolvePolicy cfg.license_details false).saved "commercial" =
        mget? cfg.license_details "commercial") ∧
    (∀ es m, build_license_embeds cfg author false t f inc = some es →
      es.head? = some m → fieldValue m "📄 协议类型" = some "**自定义协议**") := by
  obtain ⟨hcc0, hsw0, hw0, hlt0⟩ := resolve_noncatalog cfg.license_details false hnb hns
  refine ⟨hw0, ?_, ?_, ?_⟩
  · intro hcust
    rcases resolvePolicy_cases cfg.license_details false with
      ⟨hb, _⟩ | ⟨_, _, e⟩ | ⟨_, _, hcc, _, _, _⟩ | ⟨_, _, hcc, _, _, _⟩ | ⟨_, hc, _, _⟩
    · exact absurd hb (by decide)
    · rw [e]
      exact mget?_msetKey_self _ _ _
    · rw [hnb] at hcc
      exact absurd hcc (by decide)
    · rw [hnb] at hcc
      exact absurd hcc (by decide)
    · exact absurd hcust hc
  · intro hncust
    rcases resolvePolicy_cases cfg.license_details false with
      ⟨hb, _⟩ | ⟨_, hc, _⟩ | ⟨_, _, hcc, _, _, _⟩ | ⟨_, _, hcc, _, _, _⟩ | ⟨_, _, _, e⟩
    · exact absurd hb (by decide)
    · exact absurd hc hncust
    · rw [hnb] at hcc
      exact absurd hcc (by decide)
    · rw [hnb] at hcc
      exact absurd hcc (by decide)
    · rw [e]
  · intro es m h hm
    obtain ⟨display, parts, fs, hd, hp, hf, hes⟩ := build_some_elim _ _ _ _ _ _ _ h
    subst hes
    simp only [List.cons_append, List.head?, Option.some.injEq] at hm
    subst hm
    simp only [mainFields, hsw0] at hf
    simp only [Bool.false_eq_true, if_false, Option.some.injEq] at hf
    subst hf
    simp [fieldValue, List.find?, hcc0]

set_option maxRecDepth 100000 in
/-- Witness for the amended C3 at `{"type": "custom", "commercial": …}`. -/
theorem C3_custom_forcing_witness :
    ((lookupS CC_LICENSES (mgetD cfgCustom.license_details "type" "custom")).isSome = false ∧
     (lookupS SOFTWARE_LICENSES (mgetD cfgCustom.license_details "type" "custom")).isSome
       = false) ∧
    ((resolvePolicy cfgCustom.license_details false).warning = none ∧
     (mgetD cfgCustom.license_details "type" "custom" = "custom" →
       mget? (resolvePolicy cfgCustom.license_details false).saved "commercial"
         = some "禁止") ∧
     (mgetD cfgCustom.license_details "type" "custom" ≠ "custom" →
       mget? (resolvePolicy cfgCustom.license_details false).saved "commercial" =
         mget? cfgCustom.license_details "commercial") ∧
     (∀ es m, build_license_embeds cfgCustom sampleAuthor false none none true = some es →
       es.head? = some m → fieldValue m "📄 协议类型" = some "**自定义协议**")) :=
  ⟨⟨by decide, by decide⟩,
   C3_custom_forcing cfgCustom sampleAuthor none none true (by decide) (by decide)⟩

/-! ## Claim C9: missing fields never raise -/

/-- `dict.update` semantics: a key bound in the overlay ends up with the
overlay's (last) value — `mget?` on the reversed overlay is exactly
"last binding wins". -/
theorem mget?_mupdate_eq (m e : StrMap) (k : String)
    (h : (mget? e.reverse k).isSome = true) :
    mget? (mupdate m e) k = mget? e.reverse k := by
  induction e using List.reverseRecOn generalizing m with
  | nil => simp [mget?] at h
  | append_singleton e' kv ih =>
      obtain ⟨k0, v0⟩ := kv
      have hup : mupdate m (e' ++ [(k0, v0)]) = msetKey (mupdate m e') k0 v0 := by
        simp [mupdate, List.foldl_append]
      rw [hup]
      rw [List.reverse_append] at h ⊢
      simp only [List.reverse_singleton, List.singleton_append, mget?] at h ⊢
      by_cases hk : k0 = k
      · simp only [hk, if_pos rfl]
        subst hk
        exact mget?_msetKey_self _ _ _
      · simp only [hk, if_neg hk] at h ⊢
        rw [mget?_msetKey_ne _ _ hk]
        exact ih m h

/-- Every CC catalog entry carries a `url` (seen through the reversed
entry, as `dict.update` reads it). -/
theorem cc_entry_url_rev {k : String} {e : StrMap}
    (h : lookupS CC_LICENSES k = some e) :
    (mget? e.reverse "url").isSome = true := by
  simp only [CC_LICENSES, lookupS] at h
  split_ifs at h <;> cases h <;> decide

/-- Every software catalog entry carries a `url`. -/
theorem sw_entry_url_rev {k : String} {e : StrMap}
    (h : lookupS SOFTWARE_LICENSES k = some e) :
    (mget? e.reverse "url").isSome = true := by
  simp only [SOFTWARE_LICENSES, lookupS] at h
  split_ifs at h <;> cases h <;> decide

/-- Every software catalog entry carries a `full_text`. -/
theorem sw_entry_full_text_rev {k : String} {e : StrMap}
    (h : lookupS SOFTWARE_LICENSES k = some e) :
    (mget? e.reverse "full_text").isSome = true := by
  simp only [SOFTWARE_LICENSES, lookupS] at h
  split_ifs at h <;> cases h <;> decide

/-- The resolver never reports both catalog flags. -/
theorem resolve_not_both (d : StrMap) (b : Bool)
    (h1 : (resolvePolicy d b).isCC = true) :
    (resolvePolicy d b).isSoftware = false := by
  by_contra hx
  have hx' : (resolvePolicy d b).isSoftware = true := by
    revert hx
    cases (resolvePolicy d b).isSoftware <;> simp
  exact catalogs_disjoint (resolve_isCC_lookup _ _ h1) (resolve_isSoftware_lookup _ _ hx')

/-- The description stage succeeds whenever a needed `url` is present. -/
theorem descriptionParts_isSome (st : ResolveState) (display : StrMap) (author : Member)
    (hcc : st.isCC = true → (mget? display "url").isSome = true)
    (hsw : st.isSoftware = true → (mget? display "url").isSome = true) :
    (descriptionParts st display author).isSome = true := by
  unfold descriptionParts
  by_cases h1 : st.isCC = true
  · obtain ⟨u, hu⟩ := Option.isSome_iff_exists.mp (hcc h1)
    simp [h1, hu]
  · by_cases h2 : st.isSoftware = true
    · obtain ⟨u, hu⟩ := Option.isSome_iff_exists.mp (hsw h2)
      simp [h1, h2, hu]
    · simp [h1, h2]

/-- The fields stage succeeds whenever a needed `full_text` is present. -/
theorem mainFields_isSome (st : ResolveState) (display : StrMap)
    (hsw : st.isSoftware = true → (mget? display "full_text").isSome = true) :
    (mainFields st display).isSome = true := by
  unfold mainFields
  by_cases h2 : st.isSoftware = true
  · obtain ⟨ft, hft⟩ := Option.isSome_iff_exists.mp (hsw h2)
    simp [h2, hft]
  · simp [h2]

/-- A build succeeds whenever its three stages succeed. -/
theorem build_total_of (cfg : LicenseConfig) (author : Member) (allowed : Bool)
    (t f : Option String) (inc : Bool) (display : StrMap)
    (hd : displayDetails (resolvePolicy cfg.license_details allowed) = some display)
    (hp : (descriptionParts (resolvePolicy cfg.license_details allowed) display
      author).isSome = true)
    (hf : (mainFields (resolvePolicy cfg.license_details allowed) display).isSome = true) :
    ∃ es, build_license_embeds cfg author allowed t f inc = some es := by
  obtain ⟨parts, hp'⟩ := Option.isSome_iff_exists.mp hp
  obtain ⟨fs, hf'⟩ := Option.isSome_iff_exists.mp hf
  refine ⟨[{ title := some (t.getD "📜 内容授权协议"),
             description :=
               if parts = [] then none else some (String.intercalate "\n" parts),
             color :=
               if (resolvePolicy cfg.license_details allowed).warning = none then
                 DColor.gold else DColor.orange,
             author_name :=
               some ("由 " ++ author.display_name ++ " (" ++ author.name ++ ") 发布"),
             author_icon_url := some author.display_avatar_url,
             fields := fs ++
               notesFields (resolvePolicy cfg.license_details allowed) display,
             footer := some (footerText f ++ STRETCHER) }] ++
           (if inc then [appendixEmbed (resolvePolicy cfg.license_details allowed)]
            else []) ++
           postscriptEmbeds display, ?_⟩
  simp only [build_license_embeds]
  split
  · rename_i heq
    rw [hd] at heq
    exact Option.noConfusion heq
  · rename_i display' heq
    rw [hd] at heq
    cases Option.some.inj heq
    split
    · rename_i parts2 fs2 hp2 hf2
      rw [hp'] at hp2
      rw [hf'] at hf2
      cases Option.some.inj hp2
      cases Option.some.inj hf2
      rfl
    · rename_i hno
      exact ((hno parts fs) hp' hf').elim

/-- Extracting the two staged options from a successful `displayDetails`. -/
theorem displayDetails_some_elim {st : ResolveState} {display : StrMap}
    (h : displayDetails st = some display) :
    ∃ d0, overlayCatalog st = some d0 ∧
      substitutePlaceholders d0
        (if st.isCC then st.licenseType else "相同的条款") = some display := by
  unfold displayDetails at h
  cases ho : overlayCatalog st with
  | none =>
      rw [ho] at h
      exact Option.noConfusion h
  | some d0 =>
      rw [ho] at h
      exact ⟨d0, rfl, h⟩

/-- Past the resolver, the only failure point is the line-257 format: as
soon as the display dict exists, the build succeeds — the `d[k]`
indexings on lines 263, 265 and 291 cannot raise, because the catalog
overlay (lines 239-242) supplies `url` / `full_text` for a catalog
license (and substitution leaves them alone), and non-catalog licenses
never consult them. -/
theorem build_some_of_display (cfg : LicenseConfig) (author : Member) (allowed : Bool)
    (t f : Option String) (inc : Bool) (display : StrMap)
    (hd : displayDetails (resolvePolicy cfg.license_details allowed) = some display) :
    ∃ es, build_license_embeds cfg author allowed t f inc = some es := by
  obtain ⟨d0, ho, hs⟩ := displayDetails_some_elim hd
  by_cases h1 : (resolvePolicy cfg.license_details allowed).isCC = true
  · obtain ⟨e, he⟩ := Option.isSome_iff_exists.mp (resolve_isCC_lookup _ _ h1)
    have hsw1 := resolve_not_both cfg.license_details allowed h1
    have hd0 : d0 = mupdate (resolvePolicy cfg.license_details allowed).saved e := by
      unfold overlayCatalog at ho
      simp [h1, he] at ho
      exact ho.symm
    have hurl : (mget? display "url").isSome = true := by
      rw [mget?_subst_other hs "url" (by decide) (by decide) (by decide), hd0]
      rw [mget?_mupdate_eq _ _ _ (cc_entry_url_rev he)]
      exact cc_entry_url_rev he
    refine build_total_of _ _ _ t f inc _ hd ?_ ?_
    · exact descriptionParts_isSome _ _ _ (fun _ => hurl) (fun _ => hurl)
    · refine mainFields_isSome _ _ (fun hx => ?_)
      rw [hsw1] at hx
      exact absurd hx (by decide)
  · by_cases h2 : (resolvePolicy cfg.license_details allowed).isSoftware = true
    · obtain ⟨e, he⟩ := Option.isSome_iff_exists.mp (resolve_isSoftware_lookup _ _ h2)
      have hd0 : d0 = mupdate (resolvePolicy cfg.license_details allowed).saved e := by
        unfold overlayCatalog at ho
        simp [h1, h2, he] at ho
        exact ho.symm
      have hurl : (mget? display "url").isSome = true := by
        rw [mget?_subst_other hs "url" (by decide) (by decide) (by decide), hd0]
        rw [mget?_mupdate_eq _ _ _ (sw_entry_url_rev he)]
        exact sw_entry_url_rev he
      have hft : (mget? display "full_text").isSome = true := by
        rw [mget?_subst_other hs "full_text" (by decide) (by decide) (by decide), hd0]
        rw [mget?_mupdate_eq _ _ _ (sw_entry_full_text_rev he)]
        exact sw_entry_full_text_rev he
      refine build_total_of _ _ _ t f inc _ hd ?_ ?_
      · exact descriptionParts_isSome _ _ _ (fun _ => hurl) (fun _ => hurl)
      · exact mainFields_isSome _ _ (fun _ => hft)
    · refine build_total_of _ _ _ t f inc _ hd ?_ ?_
      · exact descriptionParts_isSome _ _ _ (fun hx => absurd hx h1)
          (fun hx => absurd hx h2)
      · exact mainFields_isSome _ _ (fun hx => absurd hx h2)

set_option maxRecDepth 100000 in
/-- **C9 counterexample.** The claim says an absent `notes` field "degrades
to the fixed 未设置 placeholder". It does not: with no `notes` key the
additional-terms field is omitted entirely (lines 303-307), so there is no
notes field at all — in particular none carrying `"未设置"`. -/
theorem C9_counterexample :
    mget? ((displayDetails (resolvePolicy cfgCustom.license_details true)).getD [])
      "notes" = none ∧
    mainFieldOf (build_license_embeds cfgCustom sampleAuthor true none none true)
      "📝 附加条款 (如无另外声明，其效力范围同本协议)" = none ∧
    mainFieldOf (build_license_embeds cfgCustom sampleAuthor true none none true)
      "📝 附加条款 (如无另外声明，其效力范围同本协议)" ≠ some "未设置" := by
  decide

/-- **C9 (amended).** A missing field never causes a raise: the `d[k]`
indexings (`url` on lines 263/265, `full_text` on line 291) are always
satisfied — the catalog overlay supplies them for catalog licenses and
non-catalog licenses never consult them — so whenever the
overlay-and-substitution stage produces the display dict the build
returns a result (the only raising path is line 257 formatting a
*present* term value, never a missing field); each of the four
`get`-defaulted fields (`attribution`, `reproduce`, `derive`,
`commercial`) renders as the fixed `"未设置"` placeholder when absent,
while an absent `notes` omits the additional-terms field rather than
raising. -/
theorem C9_missing_fields (cfg : LicenseConfig) (author : Member) (allowed : Bool)
    (t f : Option String) (inc : Bool) :
    (∀ display,
      displayDetails (resolvePolicy cfg.license_details allowed) = some display →
      ∃ es, build_license_embeds cfg author allowed t f inc = some es) ∧
    (∀ es m display, build_license_embeds cfg author allowed t f inc = some es →
      es.head? = some m →
      (resolvePolicy cfg.license_details allowed).isSoftware = false →
      displayDetails (resolvePolicy cfg.license_details allowed) = some display →
      ((mget? display "attribution" = none →
          fieldValue m "✒️ 作者署名" = some "未设置") ∧
       (mget? display "reproduce" = none →
          fieldValue m "🔁 二次传播" = some "未设置") ∧
       (mget? display "derive" = none →
          fieldValue m "🎨 二次创作" = some "未设置") ∧
       (mget? display "commercial" = none →
          fieldValue m "💰 商业用途" = some "未设置") ∧
       (mget? display "notes" = none →
          fieldValue m "📝 附加条款 (如无另外声明，其效力范围同本协议)" = none))) := by
  refine ⟨fun display hd =>
    build_some_of_display cfg author allowed t f inc display hd, ?_⟩
  intro es m display h hm hsw hdisp
  obtain ⟨display', parts, fs, hd, hp, hf, hes⟩ := build_some_elim _ _ _ _ _ _ _ h
  rw [hdisp] at hd
  cases Option.some.inj hd
  subst hes
  simp only [List.cons_append, List.head?, Option.some.injEq] at hm
  subst hm
  simp only [mainFields, hsw] at hf
  simp only [Bool.false_eq_true, if_false, Option.some.injEq] at hf
  subst hf
  have hfmt : _format_links_in_text "未设置" = "未设置" := by decide
  refine ⟨?_, ?_, ?_, ?_, ?_⟩ <;> intro hnone
  · simp [fieldValue, List.find?, mgetD, hnone, hfmt]
  · simp [fieldValue, List.find?, mgetD, hnone, hfmt]
  · simp [fieldValue, List.find?, mgetD, hnone, hfmt]
  · simp [fieldValue, List.find?, mgetD, hnone, hfmt]
  · have hnotes : notesFields (resolvePolicy cfg.license_details allowed) display = [] := by
      unfold notesFields
      by_cases hcc : (resolvePolicy cfg.license_details allowed).isCC = true
      · simp [hcc]
      · simp [hcc, hnone]
    simp [fieldValue, List.find?, hnotes]

set_option maxRecDepth 100000 in
/-- Witness for the amended C9: with an empty details dict every defaulted
field really renders as `"未设置"` and the notes field is absent. -/
theorem C9_missing_fields_witness :
    fieldValue ((((build_license_embeds ⟨[], true, true, true⟩ sampleAuthor true none none
        true).getD []).head?).getD emptyEmbed) "✒️ 作者署名" = some "未设置" ∧
    fieldValue ((((build_license_embeds ⟨[], true, true, true⟩ sampleAuthor true none none
        true).getD []).head?).getD emptyEmbed) "🔁 二次传播" = some "未设置" ∧
    fieldValue ((((build_license_embeds ⟨[], true, true, true⟩ sampleAuthor true none none
        true).getD []).head?).getD emptyEmbed) "🎨 二次创作" = some "未设置" ∧
    fieldValue ((((build_license_embeds ⟨[], true, true, true⟩ sampleAuthor true none none
        true).getD []).head?).getD emptyEmbed) "💰 商业用途" = some "未设置" ∧
    fieldValue ((((build_license_embeds ⟨[], true, true, true⟩ sampleAuthor true none none
        true).getD []).head?).getD emptyEmbed)
      "📝 附加条款 (如无另外声明，其效力范围同本协议)" = none :=
  have h := (C9_missing_fields ⟨[], true, true, true⟩ sampleAuthor true none none true).2
    ((build_license_embeds ⟨[], true, true, true⟩ sampleAuthor true none none true).getD [])
    ((((build_license_embeds ⟨[], true, true, true⟩ sampleAuthor true none none
      true).getD []).head?).getD emptyEmbed)
    ((displayDetails (resolvePolicy
      (⟨[], true, true, true⟩ : LicenseConfig).license_details true)).getD [])
    (by decide) (by decide) (by decide) (by decide)
  ⟨h.1 (by decide), h.2.1 (by decide), h.2.2.1 (by decide), h.2.2.2.1 (by decide),
   h.2.2.2.2 (by decide)⟩

/-! ## Claim C4: placeholder substitution in the three core terms -/

/-- In every resolver branch `isCC` equals catalog membership of the
effective type. -/
theorem resolve_isCC_eq (d : StrMap) (b : Bool) :
    (resolvePolicy d b).isCC =
      (lookupS CC_LICENSES (resolvePolicy d b).licenseType).isSome := by
  rcases resolvePolicy_cases d b with
    ⟨_, e⟩ | ⟨_, hc, e⟩ | ⟨_, _, _, _, hpot, e⟩ | ⟨_, _, _, _, _, e⟩ | ⟨_, _, _, e⟩ <;>
    rw [e] <;> first
      | rfl
      | (rw [hc]; decide)
      | (rw [hpot])
      | decide

/-- **C4 counterexample.** The claim reads every occurrence of
`{license_type}` in a stored term template as a hole to fill with the
resolved name or the generic phrase. CPython's `str.format` does not:
doubled braces are escapes, so the stored template
`"遵循 {{license_type}} 条款"` — which contains the placeholder text —
renders as the literal `"遵循 {license_type} 条款"`, with nothing
substituted. -/
theorem C4_counterexample :
    mget? ((overlayCatalog (resolvePolicy cfgEsc.license_details true)).getD [])
      "reproduce" = some "遵循 {{license_type}} 条款" ∧
    strContains "遵循 {{license_type}} 条款" "{license_type}" = true ∧
    (resolvePolicy cfgEsc.license_details true).isCC = false ∧
    mainFieldOf (build_license_embeds cfgEsc sampleAuthor true none none true)
      "🔁 二次传播" = some "遵循 {license_type} 条款" ∧
    mainFieldOf (build_license_embeds cfgEsc sampleAuthor true none none true)
      "🔁 二次传播" ≠ some "遵循 相同的条款 条款" := by
  decide

/-- **C4 (amended).** In the custom/CC rendering branch each of the
`reproduce`, `derive` and `commercial` templates is rendered by
`str.format` with the `license_type` keyword bound to the literal
resolved license name when the resolved type is a catalog CC license
(`isCC`, which coincides with catalog membership) and to the generic
`"相同的条款"` otherwise, then beautified: every plain `{license_type}`
replacement field is filled with that binding, while doubled braces are
escapes and a malformed template aborts the build. `d0` is the overlaid
dict of lines 237-242, i.e. the field value before substitution. -/
theorem C4_placeholder_substitution (cfg : LicenseConfig) (author : Member)
    (allowed : Bool) (t f : Option String) (inc : Bool) (es : List Embed) (m : Embed)
    (d0 : StrMap)
    (h : build_license_embeds cfg author allowed t f inc = some es)
    (hm : es.head? = some m)
    (hsw : (resolvePolicy cfg.license_details allowed).isSoftware = false)
    (hov : overlayCatalog (resolvePolicy cfg.license_details allowed) = some d0) :
    ((resolvePolicy cfg.license_details allowed).isCC =
      (lookupS CC_LICENSES (resolvePolicy cfg.license_details allowed).licenseType).isSome) ∧
    (∀ v fv, mget? d0 "reproduce" = some v →
      pyFormatLicenseType v
        (if (resolvePolicy cfg.license_details allowed).isCC then
          (resolvePolicy cfg.license_details allowed).licenseType else "相同的条款") =
        some fv →
      fieldValue m "🔁 二次传播" = some (_format_links_in_text fv)) ∧
    (∀ v fv, mget? d0 "derive" = some v →
      pyFormatLicenseType v
        (if (resolvePolicy cfg.license_details allowed).isCC then
          (resolvePolicy cfg.license_details allowed).licenseType else "相同的条款") =
        some fv →
      fieldValue m "🎨 二次创作" = some (_format_links_in_text fv)) ∧
    (∀ v fv, mget? d0 "commercial" = some v →
      pyFormatLicenseType v
        (if (resolvePolicy cfg.license_details allowed).isCC then
          (resolvePolicy cfg.license_details allowed).licenseType else "相同的条款") =
        some fv →
      fieldValue m "💰 商业用途" = some (_format_links_in_text fv)) := by
  obtain ⟨display, parts, fs, hd, hp, hf, hes⟩ := build_some_elim _ _ _ _ _ _ _ h
  obtain ⟨d0x, hox, hsx⟩ := displayDetails_some_elim hd
  rw [hov] at hox
  cases Option.some.inj hox
  subst hes
  simp only [List.cons_append, List.head?, Option.some.injEq] at hm
  subst hm
  simp only [mainFields, hsw] at hf
  simp only [Bool.false_eq_true, if_false, Option.some.injEq] at hf
  subst hf
  refine ⟨resolve_isCC_eq _ _, ?_, ?_, ?_⟩ <;> intro v fv hv hfv
  · obtain ⟨fv2, hf2, hm2⟩ := mget?_subst_reproduce hsx hv
    rw [hfv] at hf2
    cases Option.some.inj hf2
    have hval : mgetD display "reproduce" "未设置" = fv := by
      rw [mgetD, hm2]
      rfl
    simp [fieldValue, List.find?, hval]
  · obtain ⟨fv2, hf2, hm2⟩ := mget?_subst_derive hsx hv
    rw [hfv] at hf2
    cases Option.some.inj hf2
    have hval : mgetD display "derive" "未设置" = fv := by
      rw [mgetD, hm2]
      rfl
    simp [fieldValue, List.find?, hval]
  · obtain ⟨fv2, hf2, hm2⟩ := mget?_subst_commercial hsx hv
    rw [hfv] at hf2
    cases Option.some.inj hf2
    have hval : mgetD display "commercial" "未设置" = fv := by
      rw [mgetD, hm2]
      rfl
    simp [fieldValue, List.find?, hval]

set_option maxRecDepth 100000 in
/-- Witness for C4 at a custom license whose `reproduce` template carries
a plain `{license_type}` hole: it renders with `"相同的条款"` filled in. -/
theorem C4_placeholder_substitution_witness :
    (build_license_embeds cfgCustom sampleAuthor true none none true =
       some ((build_license_embeds cfgCustom sampleAuthor true none none true).getD []) ∧
     ((build_license_embeds cfgCustom sampleAuthor true none none true).getD []).head? =
       some ((((build_license_embeds cfgCustom sampleAuthor true none none true).getD
         []).head?).getD emptyEmbed) ∧
     (resolvePolicy cfgCustom.license_details true).isSoftware = false ∧
     overlayCatalog (resolvePolicy cfgCustom.license_details true) =
       some ((overlayCatalog (resolvePolicy cfgCustom.license_details true)).getD []) ∧
     mget? ((overlayCatalog (resolvePolicy cfgCustom.license_details true)).getD [])
       "reproduce" = some "需 {license_type} 授权" ∧
     pyFormatLicenseType "需 {license_type} 授权"
       (if (resolvePolicy cfgCustom.license_details true).isCC then
         (resolvePolicy cfgCustom.license_details true).licenseType else "相同的条款") =
       some "需 相同的条款 授权") ∧
    fieldValue ((((build_license_embeds cfgCustom sampleAuthor true none none true).getD
        []).head?).getD emptyEmbed) "🔁 二次传播" =
      some (_format_links_in_text "需 相同的条款 授权") :=
  ⟨⟨by decide, by decide, by decide, by decide, by decide, by decide⟩,
   (C4_placeholder_substitution cfgCustom sampleAuthor true none none true
      ((build_license_embeds cfgCustom sampleAuthor true none none true).getD [])
      ((((build_license_embeds cfgCustom sampleAuthor true none none true).getD
        []).head?).getD emptyEmbed)
      ((overlayCatalog (resolvePolicy cfgCustom.license_details true)).getD [])
      (by decide) (by decide) (by decide) (by decide)).2.1
     "需 {license_type} 授权" "需 相同的条款 授权" (by decide) (by decide)⟩

/-! ## Claim C7: section ordering -/

/-- The postscript stage yields one embed exactly when a kept
`personal_statement` is present, else none. -/
theorem postscriptEmbeds_eq (display : StrMap) :
    (hasPostscript display = false ∧ postscriptEmbeds display = []) ∨
    (hasPostscript display = true ∧ ∃ ps, mget? display "personal_statement" = some ps ∧
      postscriptEmbeds display =
        [{ title := some "📣 附言 (无法律效力)", description := some ps,
           color := DColor.blue, author_name := none, author_icon_url := none,
           fields := [], footer := none }]) := by
  unfold hasPostscript postscriptEmbeds
  cases h : mget? display "personal_statement" with
  | none => exact Or.inl ⟨rfl, rfl⟩
  | some ps =>
      by_cases hk : keepFreeText ps = true
      · exact Or.inr ⟨hk, ps, rfl, by simp [hk]⟩
      · have hk' : keepFreeText ps = false := by
          revert hk
          cases keepFreeText ps <;> simp
        exact Or.inl ⟨hk', by simp [hk']⟩

/-- **C7.** The embed list is: the main section first, then the appendix
exactly when `include_appendix` is set, then the postscript exactly when a
non-empty, non-placeholder `personal_statement` exists; the postscript (if
present) is last and the appendix (if present) sits between the two. -/
theorem C7_section_order (cfg : LicenseConfig) (author : Member) (allowed : Bool)
    (t f : Option String) (inc : Bool) (es : List Embed) (display : StrMap)
    (h : build_license_embeds cfg author allowed t f inc = some es)
    (hdisp : displayDetails (resolvePolicy cfg.license_details allowed) = some display) :
    es.length = 1 + (if inc = true then 1 else 0) +
      (if hasPostscript display = true then 1 else 0) ∧
    (es.head?).map Embed.title = some (some (t.getD "📜 内容授权协议")) ∧
    (inc = true → (es[1]?).map Embed.title = some (some "⚖️ 协议生效规则")) ∧
    (hasPostscript display = true →
      (es.getLast?).map Embed.title = some (some "📣 附言 (无法律效力)")) := by
  obtain ⟨display', parts, fs, hd, hp, hf, hes⟩ := build_some_elim _ _ _ _ _ _ _ h
  rw [hdisp] at hd
  cases Option.some.inj hd
  subst hes
  rcases postscriptEmbeds_eq display with ⟨hps, hemp⟩ | ⟨hps, ps, hpsv, hemp⟩ <;>
    rw [hemp] <;> cases inc <;> simp [hps, appendixEmbed, List.getLast?]

set_option maxRecDepth 100000 in
/-- Witness for C7 at `{"type": "CC BY-NC 4.0", "personal_statement": …}`
with the appendix included: three sections in order. -/
theorem C7_section_order_witness :
    (build_license_embeds cfgNC sampleAuthor true none none true =
       some ((build_license_embeds cfgNC sampleAuthor true none none true).getD []) ∧
     displayDetails (resolvePolicy cfgNC.license_details true) =
       some ((displayDetails (resolvePolicy cfgNC.license_details true)).getD [])) ∧
    (((build_license_embeds cfgNC sampleAuthor true none none true).getD []).length =
       1 + (if true = true then 1 else 0) +
       (if hasPostscript ((displayDetails (resolvePolicy cfgNC.license_details true)).getD
         []) = true then 1 else 0) ∧
     (((build_license_embeds cfgNC sampleAuthor true none none true).getD []).head?).map
       Embed.title = some (some ((none : Option String).getD "📜 内容授权协议")) ∧
     (true = true →
       ((((build_license_embeds cfgNC sampleAuthor true none none true).getD [])[1]?)).map
         Embed.title = some (some "⚖️ 协议生效规则")) ∧
     (hasPostscript ((displayDetails (resolvePolicy cfgNC.license_details true)).getD [])
        = true →
       (((build_license_embeds cfgNC sampleAuthor true none none true).getD
         []).getLast?).map Embed.title = some (some "📣 附言 (无法律效力)"))) :=
  ⟨⟨by decide, by decide⟩,
   C7_section_order cfgNC sampleAuthor true none none true
     ((build_license_embeds cfgNC sampleAuthor true none none true).getD [])
     ((displayDetails (resolvePolicy cfgNC.license_details true)).getD [])
     (by decide) (by decide)⟩

/-! ## Claim C8: the caller's dict is never mutated -/

/-- Writing one heap cell leaves every other cell unchanged. -/
theorem get?_set_ne (l : List StrMap) (j i : Nat) (m : StrMap) (hne : j ≠ i) :
    (l.set j m).get? i = l.get? i := by
  induction l generalizing i j with
  | nil => rfl
  | cons a l ih =>
      cases j with
      | zero =>
          cases i with
          | zero => exact absurd rfl hne
          | succ i => rfl
      | succ j =>
          cases i with
          | zero => rfl
          | succ i => exact ih j i (fun hh => hne (by rw [hh]))

/-- Reading below the length of the left list ignores an appended cell. -/
theorem get?_append_left (l l2 : List StrMap) (i : Nat) (h : i < l.length) :
    (l ++ l2).get? i = l.get? i := by
  induction l generalizing i with
  | nil => exact absurd h (by simp)
  | cons a l ih =>
      cases i with
      | zero => rfl
      | succ i => exact ih i (Nat.lt_of_succ_lt_succ h)

theorem heapGet_set_ne (l : List StrMap) (j i : Nat) (m : StrMap) (hne : j ≠ i) :
    heapGet (l.set j m) i = heapGet l i := by
  unfold heapGet
  rw [List.getD_eq_getElem?_getD, List.getD_eq_getElem?_getD, ← List.get?_eq_getElem?,
    ← List.get?_eq_getElem?, get?_set_ne l j i m hne]

theorem heapGet_append_left (l l2 : List StrMap) (i : Nat) (h : i < l.length) :
    heapGet (l ++ l2) i = heapGet l i := by
  unfold heapGet
  rw [List.getD_eq_getElem?_getD, List.getD_eq_getElem?_getD, ← List.get?_eq_getElem?,
    ← List.get?_eq_getElem?, get?_append_left l l2 i h]

/-- The substitution loop only ever writes the display cell. -/
theorem heapSubstStep_get_ne (j : Nat) (r : String) (s : List StrMap × Bool)
    (k : String) {i : Nat} (hne : j ≠ i) :
    heapGet (heapSubstStep j r s k).1 i = heapGet s.1 i := by
  unfold heapSubstStep
  by_cases hb : s.2 = true
  · rw [if_pos hb]
  · rw [if_neg hb]
    split
    · rfl
    · split
      · exact heapGet_set_ne _ _ _ _ hne
      · rfl

/-- **C8.** `build_license_embeds` never mutates the caller's stored
configuration: in the heap model of lines 196-257 (where `.copy()`
allocates a fresh cell and all downgrade overrides, catalog overlays and
placeholder substitutions write through `saved_details`/`display_details`,
both naming that fresh cell), the cell holding `config.license_details`
reads the same after the call. -/
theorem C8_no_mutation (heap : List StrMap) (cfgIx : Nat) (allowed : Bool)
    (h : cfgIx < heap.length) :
    heapGet (heapResolveDisplay heap cfgIx allowed).1 cfgIx = heapGet heap cfgIx := by
  have hne : heap.length ≠ cfgIx := by omega
  have key : ∀ (l : List StrMap) (m : StrMap),
      heapGet (l.set heap.length m) cfgIx = heapGet l cfgIx :=
    fun l m => heapGet_set_ne l heap.length cfgIx m hne
  have happ : ∀ x, heapGet (heap ++ [x]) cfgIx = heapGet heap cfgIx :=
    fun x => heapGet_append_left heap [x] cfgIx h
  have kstep : ∀ (s : List StrMap × Bool) (r : String) (k : String),
      heapGet (heapSubstStep heap.length r s k).1 cfgIx = heapGet s.1 cfgIx :=
    fun s r k => heapSubstStep_get_ne heap.length r s k hne
  unfold heapResolveDisplay
  simp only [List.foldl]
  split_ifs <;> simp [kstep, key, happ]

/-- Witness for C8: a one-dict heap holding a commercial CC type; after
the call the original cell is untouched even though the resolution did
downgrade the working copy. -/
theorem C8_no_mutation_witness :
    0 < ([[("type", "CC BY 4.0"), ("commercial", "允许")]] : List StrMap).length ∧
    heapGet (heapResolveDisplay [[("type", "CC BY 4.0"), ("commercial", "允许")]] 0
      false).1 0 = heapGet [[("type", "CC BY 4.0"), ("commercial", "允许")]] 0 ∧
    heapGet (heapResolveDisplay [[("type", "CC BY 4.0"), ("commercial", "允许")]] 0
      false).1 (heapResolveDisplay [[("type", "CC BY 4.0"), ("commercial", "允许")]] 0
      false).2 ≠ heapGet [[("type", "CC BY 4.0"), ("commercial", "允许")]] 0 :=
  ⟨by decide, C8_no_mutation _ 0 false (by decide), by decide⟩

/-! ## Scanner infrastructure for claims C5 and C6 -/

theorem occursB_of_isPrefixOf {w cs : List Char} (h : w.isPrefixOf cs = true) :
    occursB w cs = true := by
  cases cs with
  | nil =>
      cases w with
      | nil => rfl
      | cons a t => simp [List.isPrefixOf] at h
  | cons c rest => simp [occursB, h]

theorem occursB_cons_of {w : List Char} (c : Char) {rest : List Char}
    (h : occursB w rest = true) : occursB w (c :: rest) = true := by
  simp [occursB, h]

theorem occursB_append_right {w t : List Char} (s : List Char)
    (h : occursB w t = true) : occursB w (s ++ t) = true := by
  induction s with
  | nil => exact h
  | cons a s ih => exact occursB_cons_of a ih

theorem isPrefixOf_append {w l : List Char} (ext : List Char)
    (h : w.isPrefixOf l = true) : w.isPrefixOf (l ++ ext) = true := by
  induction w generalizing l with
  | nil =>
      cases hl : l ++ ext with
      | nil => rfl
      | cons c cs => rfl
  | cons a w ih =>
      cases l with
      | nil => simp [List.isPrefixOf] at h
      | cons b l =>
          simp only [List.isPrefixOf, Bool.and_eq_true] at h
          simp only [List.cons_append, List.isPrefixOf, Bool.and_eq_true]
          exact ⟨h.1, ih h.2⟩

theorem occursB_append_left {w t : List Char} (ext : List Char)
    (h : occursB w t = true) : occursB w (t ++ ext) = true := by
  induction t with
  | nil =>
      cases w with
      | nil =>
          cases ext with
          | nil => rfl
          | cons e es => simp [occursB, List.isPrefixOf]
      | cons a w' => simp [occursB, List.isEmpty] at h
  | cons c t ih =>
      simp only [occursB, Bool.or_eq_true] at h
      rcases h with h | h
      · simp only [List.cons_append, occursB, Bool.or_eq_true]
        exact Or.inl (isPrefixOf_append ext h)
      · simp only [List.cons_append, occursB, Bool.or_eq_true]
        exact Or.inr (ih h)

theorem occursB_dropLast {w xs : List Char} (h : occursB w xs.dropLast = true) :
    occursB w xs = true := by
  have hsplit : xs.dropLast ++ xs.drop (xs.length - 1) = xs := by
    rw [List.dropLast_eq_take]
    exact List.take_append_drop _ _
  rw [← hsplit]
  exact occursB_append_left _ h

theorem hasScheme_suffix_false {xs t : List Char} (h : hasScheme xs = false) (s : List Char)
    (hsuf : s ++ t = xs) : hasScheme t = false := by
  by_contra hx
  have hx' : hasScheme t = true := by
    revert hx
    cases hasScheme t <;> simp
  subst hsuf
  unfold hasScheme at h hx'
  simp only [Bool.or_eq_true] at hx'
  simp only [Bool.or_eq_false_iff] at h
  rcases hx' with h1 | h1
  · rw [occursB_append_right s h1] at h
    exact Bool.noConfusion h.1
  · rw [occursB_append_right s h1] at h
    exact Bool.noConfusion h.2

theorem hasScheme_dropLast_false {xs : List Char} (h : hasScheme xs = false) :
    hasScheme xs.dropLast = false := by
  by_contra hx
  have hx' : hasScheme xs.dropLast = true := by
    revert hx
    cases hasScheme xs.dropLast <;> simp
  unfold hasScheme at h hx'
  simp only [Bool.or_eq_true] at hx'
  simp only [Bool.or_eq_false_iff] at h
  rcases hx' with h1 | h1
  · rw [occursB_dropLast h1] at h
    exact Bool.noConfusion h.1
  · rw [occursB_dropLast h1] at h
    exact Bool.noConfusion h.2

theorem matchScheme_elim {cs w r : List Char} (h : matchScheme cs = some (w, r)) :
    (w = "https://".data ∧ cs = "https://".data ++ r) ∨
    (w = "http://".data ∧ cs = "http://".data ++ r) := by
  unfold matchScheme at h
  split at h
  · rename_i rest
    obtain ⟨h1, h2⟩ := Prod.mk.injEq .. |>.mp (Option.some.inj h)
    subst h2
    exact Or.inl ⟨h1.symm, rfl⟩
  · rename_i rest
    obtain ⟨h1, h2⟩ := Prod.mk.injEq .. |>.mp (Option.some.inj h)
    subst h2
    exact Or.inr ⟨h1.symm, rfl⟩
  · exact Option.noConfusion h

theorem matchScheme_https (X : List Char) :
    matchScheme ("https://".data ++ X) = some ("https://".data, X) := rfl

theorem matchScheme_http (X : List Char) :
    matchScheme ("http://".data ++ X) = some ("http://".data, X) := rfl

theorem matchScheme_ne_h {c : Char} {cs : List Char} (hc : c ≠ 'h') :
    matchScheme (c :: cs) = none := by
  cases hm : matchScheme (c :: cs) with
  | none => rfl
  | some p =>
      obtain ⟨w, r⟩ := p
      rcases matchScheme_elim hm with ⟨_, he⟩ | ⟨_, he⟩ <;>
        (injection he with h1 _; exact absurd h1 hc)

theorem scanBoth_nil (f : Nat) (p2 p1 : Option Char) : scanBoth f p2 p1 [] = ([], []) := by
  cases f <;> rfl

theorem scanBoth_zero (p2 p1 : Option Char) (cs : List Char) :
    scanBoth 0 p2 p1 cs = (cs, []) := by
  cases cs <;> rfl

theorem scanBoth_cons_none (f : Nat) (p2 p1 : Option Char) (c : Char) (rest : List Char)
    (h : matchScheme (c :: rest) = none) :
    scanBoth (f + 1) p2 p1 (c :: rest) =
      ((c :: (scanBoth f p1 (some c) rest).1), (scanBoth f p1 (some c) rest).2) := by
  simp only [scanBoth, h]

theorem scanBoth_cons_fail (f : Nat) (p2 p1 : Option Char) (c : Char)
    (rest w after : List Char)
    (h : matchScheme (c :: rest) = some (w, after))
    (hfail : after.takeWhile isUrlChar = [] ∨ (p2 = some ']' ∧ p1 = some '(')) :
    scanBoth (f + 1) p2 p1 (c :: rest) =
      ((c :: (scanBoth f p1 (some c) rest).1), (scanBoth f p1 (some c) rest).2) := by
  simp only [scanBoth, h]
  rw [if_pos hfail]

theorem scanBoth_cons_match (f : Nat) (p2 p1 : Option Char) (c : Char)
    (rest w after : List Char)
    (h : matchScheme (c :: rest) = some (w, after))
    (hok : ¬(after.takeWhile isUrlChar = [] ∨ (p2 = some ']' ∧ p1 = some '('))) :
    scanBoth (f + 1) p2 p1 (c :: rest) =
      (replacer (w ++ after.takeWhile isUrlChar) ++
        (scanBoth f (advCtx (p2, p1) (w ++ after.takeWhile isUrlChar)).1
          (advCtx (p2, p1) (w ++ after.takeWhile isUrlChar)).2
          (after.dropWhile isUrlChar)).1,
       (w ++ after.takeWhile isUrlChar) ::
        (scanBoth f (advCtx (p2, p1) (w ++ after.takeWhile isUrlChar)).1
          (advCtx (p2, p1) (w ++ after.takeWhile isUrlChar)).2
          (after.dropWhile isUrlChar)).2) := by
  simp only [scanBoth, h]
  rw [if_neg hok]

theorem length_dropWhile_le (p : Char → Bool) (l : List Char) :
    (l.dropWhile p).length ≤ l.length := by
  induction l with
  | nil => simp [List.dropWhile]
  | cons a l ih =>
      rw [List.dropWhile_cons]
      by_cases ha : p a = true
      · rw [if_pos ha]
        exact Nat.le_succ_of_le ih
      · rw [if_neg ha]

/-- The scan does not depend on the fuel, as long as there is enough. -/
theorem scanBoth_irrel (f1 : Nat) : ∀ (f2 : Nat) (p2 p1 : Option Char) (cs : List Char),
    cs.length ≤ f1 → cs.length ≤ f2 → scanBoth f1 p2 p1 cs = scanBoth f2 p2 p1 cs := by
  induction f1 with
  | zero =>
      intro f2 p2 p1 cs h1 h2
      have hnil : cs = [] := List.eq_nil_of_length_eq_zero (Nat.le_zero.mp h1)
      subst hnil
      rw [scanBoth_nil, scanBoth_nil]
  | succ g ih =>
      intro f2 p2 p1 cs h1 h2
      cases cs with
      | nil => rw [scanBoth_nil, scanBoth_nil]
      | cons c rest =>
          obtain ⟨g2, rfl⟩ : ∃ g2, f2 = g2 + 1 := by
            cases f2 with
            | zero => simp at h2
            | succ g2 => exact ⟨g2, rfl⟩
          have hrest : rest.length ≤ g := by
            simp only [List.length_cons] at h1
            omega
          have hrest2 : rest.length ≤ g2 := by
            simp only [List.length_cons] at h2
            omega
          cases hm : matchScheme (c :: rest) with
          | none =>
              rw [scanBoth_cons_none g _ _ _ _ hm, scanBoth_cons_none g2 _ _ _ _ hm,
                ih g2 _ _ _ hrest hrest2]
          | some p =>
              obtain ⟨w, after⟩ := p
              have hlen : after.length ≤ rest.length := by
                rcases matchScheme_elim hm with ⟨_, he⟩ | ⟨_, he⟩ <;>
                  (have hc := congrArg List.length he
                   simp at hc
                   omega)
              by_cases hcond :
                  (after.takeWhile isUrlChar = [] ∨ (p2 = some ']' ∧ p1 = some '('))
              · rw [scanBoth_cons_fail g _ _ _ _ _ _ hm hcond,
                  scanBoth_cons_fail g2 _ _ _ _ _ _ hm hcond, ih g2 _ _ _ hrest hrest2]
              · have hd1 : (after.dropWhile isUrlChar).length ≤ g :=
                  le_trans (le_trans (length_dropWhile_le _ _) hlen) hrest
                have hd2 : (after.dropWhile isUrlChar).length ≤ g2 :=
                  le_trans (le_trans (length_dropWhile_le _ _) hlen) hrest2
                rw [scanBoth_cons_match g _ _ _ _ _ _ hm hcond,
                  scanBoth_cons_match g2 _ _ _ _ _ _ hm hcond, ih g2 _ _ _ hd1 hd2]

theorem replacer_head (url : List Char) : ∃ tail, replacer url = '[' :: tail := by
  unfold replacer
  split_ifs <;> exact ⟨_, rfl⟩

/-- A scheme-free, bracket-free prefix of the scan output is a prefix of
the input: the output agrees with the input until the first match, whose
replacement starts with `[`. -/
theorem isPrefixOf_scan (f : Nat) : ∀ (p2 p1 : Option Char) (cs w : List Char),
    (∀ ch ∈ w, ch ≠ 'h' ∧ ch ≠ '[') →
    w.isPrefixOf (scanBoth f p2 p1 cs).1 = true → w.isPrefixOf cs = true := by
  induction f with
  | zero =>
      intro p2 p1 cs w hw hpre
      rw [scanBoth_zero] at hpre
      exact hpre
  | succ g ih =>
      intro p2 p1 cs w hw hpre
      cases cs with
      | nil =>
          rw [scanBoth_nil] at hpre
          exact hpre
      | cons c rest =>
          have copyCase : w.isPrefixOf (c :: (scanBoth g p1 (some c) rest).1) = true →
              w.isPrefixOf (c :: rest) = true := by
            intro hpre'
            cases w with
            | nil => rfl
            | cons d w' =>
                simp only [List.isPrefixOf, Bool.and_eq_true] at hpre' ⊢
                exact ⟨hpre'.1,
                  ih p1 (some c) rest w'
                    (fun ch hch => hw ch (List.mem_cons_of_mem _ hch)) hpre'.2⟩
          cases hm : matchScheme (c :: rest) with
          | none =>
              rw [scanBoth_cons_none g _ _ _ _ hm] at hpre
              exact copyCase hpre
          | some p =>
              obtain ⟨w0, after⟩ := p
              by_cases hcond :
                  (after.takeWhile isUrlChar = [] ∨ (p2 = some ']' ∧ p1 = some '('))
              · rw [scanBoth_cons_fail g _ _ _ _ _ _ hm hcond] at hpre
                exact copyCase hpre
              · rw [scanBoth_cons_match g _ _ _ _ _ _ hm hcond] at hpre
                cases w with
                | nil => rfl
                | cons d w' =>
                    obtain ⟨tl, htl⟩ := replacer_head (w0 ++ after.takeWhile isUrlChar)
                    rw [htl] at hpre
                    simp only [List.cons_append, List.isPrefixOf, Bool.and_eq_true] at hpre
                    have hd : d = '[' := by
                      have := hpre.1
                      simpa using this
                    exact absurd hd (hw d (List.mem_cons_self _ _)).2

theorem advCtx_nil (p : Option Char × Option Char) : advCtx p [] = p := rfl

theorem advCtx_cons (p : Option Char × Option Char) (c : Char) (cs : List Char) :
    advCtx p (c :: cs) = advCtx (p.2, some c) cs := rfl

theorem advCtx_append (p : Option Char × Option Char) (xs ys : List Char) :
    advCtx p (xs ++ ys) = advCtx (advCtx p xs) ys := by
  simp [advCtx, List.foldl_append]

theorem advCtx_snd (p : Option Char × Option Char) (zs : List Char) (h : zs ≠ []) :
    (advCtx p zs).2 = zs.getLast? := by
  induction zs generalizing p with
  | nil => exact absurd rfl h
  | cons a t ih =>
      cases t with
      | nil => rfl
      | cons b t' =>
          rw [advCtx_cons, ih _ (by simp)]
          exact (List.getLast?_cons_cons).symm

theorem takeWhile_all_append {l : List Char} {p : Char → Bool}
    (hall : ∀ a ∈ l, p a = true) {b : Char} (hb : p b = false) (m : List Char) :
    (l ++ b :: m).takeWhile p = l ∧ (l ++ b :: m).dropWhile p = b :: m := by
  induction l with
  | nil =>
      simp only [List.nil_append, List.takeWhile_cons, List.dropWhile_cons, hb]
      exact ⟨rfl, rfl⟩
  | cons a l ih =>
      have ha := hall a (by simp)
      have ih' := ih (fun x hx => hall x (by simp [hx]))
      simp only [List.cons_append, List.takeWhile_cons, List.dropWhile_cons, ha, if_true]
      exact ⟨by rw [ih'.1], by rw [ih'.2]⟩

theorem mem_takeWhile {p : Char → Bool} {l : List Char} {a : Char}
    (h : a ∈ l.takeWhile p) : p a = true := by
  induction l with
  | nil => simp [List.takeWhile] at h
  | cons b l ih =>
      rw [List.takeWhile_cons] at h
      by_cases hb : p b = true
      · rw [if_pos hb] at h
        rcases List.mem_cons.mp h with rfl | h2
        · exact hb
        · exact ih h2
      · rw [if_neg hb] at h
        simp at h

theorem isPrefixOf_of_append_eq {W r zs suf : List Char} (hlen : W.length ≤ zs.length)
    (he : zs ++ suf = W ++ r) : W.isPrefixOf zs = true := by
  induction W generalizing zs r with
  | nil => cases zs <;> rfl
  | cons a W ih =>
      cases zs with
      | nil => simp at hlen
      | cons b zs' =>
          injection he with h1 h2
          subst h1
          simp only [List.isPrefixOf, Bool.and_eq_true]
          exact ⟨by simp, ih (by simpa using hlen) h2⟩

theorem head_mem_of_append_eq {W r zs suf : List Char} (hlen : zs.length < W.length)
    (he : zs ++ suf = W ++ r) : ∃ d, suf.head? = some d ∧ d ∈ W := by
  induction W generalizing zs r with
  | nil => simp at hlen
  | cons a W ih =>
      cases zs with
      | nil =>
          simp only [List.nil_append] at he
          exact ⟨a, by rw [he]; rfl, by simp⟩
      | cons b zs' =>
          injection he with h1 h2
          obtain ⟨d, hd1, hd2⟩ := ih (by simpa using hlen) h2
          exact ⟨d, hd1, by simp [hd2]⟩

/-- No scheme occurrence can start inside a scheme-free block followed by
a suffix whose first character is not a scheme character. -/
theorem no_scheme_cross {zs suf W r : List Char}
    (hw : W = "http://".data ∨ W = "https://".data)
    (he : zs ++ suf = W ++ r)
    (hsch : hasScheme zs = false)
    (hsafe : ∀ c, suf.head? = some c → c ∉ schemeChars) : False := by
  by_cases hlen : W.length ≤ zs.length
  · have hocc := occursB_of_isPrefixOf (isPrefixOf_of_append_eq hlen he)
    unfold hasScheme at hsch
    simp only [Bool.or_eq_false_iff] at hsch
    rcases hw with rfl | rfl
    · rw [hsch.1] at hocc
      exact Bool.noConfusion hocc
    · rw [hsch.2] at hocc
      exact Bool.noConfusion hocc
  · obtain ⟨d, hd1, hd2⟩ := head_mem_of_append_eq (Nat.lt_of_not_le hlen) he
    rcases hw with rfl | rfl
    · have hall : ∀ x ∈ ("http://".data : List Char), x ∈ schemeChars := by decide
      exact hsafe d hd1 (hall d hd2)
    · have hall : ∀ x ∈ ("https://".data : List Char), x ∈ schemeChars := by decide
      exact hsafe d hd1 (hall d hd2)

/-- Scanning a scheme-free block whose continuation starts with a
non-scheme character copies the block verbatim and threads the lookbehind
window through it. -/
theorem scan_walk (zs : List Char) : ∀ (f : Nat) (q2 q1 : Option Char) (suf : List Char),
    (zs ++ suf).length ≤ f →
    hasScheme zs = false →
    (∀ c, suf.head? = some c → c ∉ schemeChars) →
    scanBoth f q2 q1 (zs ++ suf) =
      ((zs ++ (scanBoth (f - zs.length) (advCtx (q2, q1) zs).1
        (advCtx (q2, q1) zs).2 suf).1),
       (scanBoth (f - zs.length) (advCtx (q2, q1) zs).1 (advCtx (q2, q1) zs).2 suf).2) := by
  induction zs with
  | nil =>
      intro f q2 q1 suf hf hsch hsafe
      simp [advCtx_nil]
  | cons z zs ih =>
      intro f q2 q1 suf hf hsch hsafe
      obtain ⟨g, rfl⟩ : ∃ g, f = g + 1 := by
        cases f with
        | zero => simp at hf
        | succ g => exact ⟨g, rfl⟩
      have hnm : matchScheme (z :: (zs ++ suf)) = none := by
        cases hm : matchScheme (z :: (zs ++ suf)) with
        | none => rfl
        | some p =>
            obtain ⟨w, r⟩ := p
            exfalso
            rcases matchScheme_elim hm with ⟨hw, he⟩ | ⟨hw, he⟩
            · exact no_scheme_cross (Or.inr rfl)
                (by rw [← List.cons_append] at he; exact he) hsch hsafe
            · exact no_scheme_cross (Or.inl rfl)
                (by rw [← List.cons_append] at he; exact he) hsch hsafe
      have hzs : hasScheme zs = false := hasScheme_suffix_false hsch [z] rfl
      have hlen : (zs ++ suf).length ≤ g := by
        simp only [List.cons_append, List.length_cons] at hf
        simpa using Nat.lt_succ_iff.mp (Nat.lt_of_lt_of_le (Nat.lt_succ_self _) hf)
      rw [List.cons_append, scanBoth_cons_none g _ _ _ _ hnm,
        ih g q1 (some z) suf hlen hzs hsafe]
      rw [advCtx_cons]
      simp [List.length_cons, Nat.succ_sub_succ]



theorem https_not_prefixOf_http (run : List Char) :
    "https://".data.isPrefixOf ("http://".data ++ run) = false := rfl

theorem getLast?_append_of_ne_nil (l1 : List Char) {l2 : List Char} (h : l2 ≠ []) :
    (l1 ++ l2).getLast? = l2.getLast? := by
  induction l1 with
  | nil => rfl
  | cons a l1 ih =>
      rw [List.cons_append]
      cases hx : l1 ++ l2 with
      | nil => exact absurd (List.append_eq_nil.mp hx).2 h
      | cons c cs => rw [List.getLast?_cons_cons, ← hx, ih]

/-- The replacement text decomposes as `[` label `](` url `)`, and for a
URL with no scheme occurrence past its first character the label is
scheme-free. -/
theorem replacer_shape {w run : List Char} (url : List Char)
    (hw : w = "http://".data ∨ w = "https://".data)
    (hurl : url = w ++ run)
    (hgood : hasScheme url.tail = false) :
    ∃ lab, replacer url = '[' :: (lab ++ (']' :: ('(' :: (url ++ [')'])))) ∧
      hasScheme lab = false := by
  unfold replacer
  by_cases hd : occursB "discord.com/".data url = true
  · rw [if_pos hd]
    refine ⟨DISCORD_LABEL.data, ?_, by decide⟩
    simp [show ("](".data : List Char) = [']', '('] from rfl, List.append_assoc]
  · rw [if_neg hd]
    have hstrip : stripScheme url = run := by
      subst hurl
      rcases hw with rfl | rfl
      · unfold stripScheme
        rw [if_neg (by rw [https_not_prefixOf_http run]; exact Bool.false_ne_true),
          if_pos (isPrefixOf_append run (by decide))]
        rfl
      · unfold stripScheme
        rw [if_pos (isPrefixOf_append run (by decide))]
        rfl
    have hrun : hasScheme run = false := by
      refine hasScheme_suffix_false hgood w.tail ?_
      subst hurl
      rcases hw with rfl | rfl <;> rfl
    refine ⟨trimSlash (stripScheme url), ?_, ?_⟩
    · simp [show ("](".data : List Char) = [']', '('] from rfl, List.append_assoc]
    · rw [hstrip]
      unfold trimSlash
      by_cases hl : run.getLast? = some '/'
      · rw [if_pos hl]
        exact hasScheme_dropLast_false hrun
      · rw [if_neg hl]
        exact hrun

/-- The second pass copies a generated `[label](url)` block verbatim: the
scheme-free label is copied, the URL start is blocked by the `](`
lookbehind, the scheme-free URL interior is copied, the closing `)` is
copied, and the scan resumes on the tail with window (url last char, `)`). -/
theorem scan_wrap (lab w run T : List Char) (f : Nat) (q2 q1 : Option Char)
    (hw : w = "http://".data ∨ w = "https://".data)
    (hlab : hasScheme lab = false)
    (hrun : run ≠ [])
    (htail : hasScheme (w ++ run).tail = false)
    (hf : ('[' :: (lab ++ (']' :: ('(' :: ((w ++ run) ++ (')' :: T)))))).length ≤ f) :
    scanBoth f q2 q1 ('[' :: (lab ++ (']' :: ('(' :: ((w ++ run) ++ (')' :: T)))))) =
      (('[' :: (lab ++ (']' :: ('(' :: ((w ++ run) ++
         (')' :: (scanBoth T.length ((w ++ run).getLast?) (some ')') T).1)))))),
       (scanBoth T.length ((w ++ run).getLast?) (some ')') T).2) := by
  obtain ⟨wt, hwt⟩ : ∃ wt, w = 'h' :: wt := by
    rcases hw with rfl | rfl
    · exact ⟨_, rfl⟩
    · exact ⟨_, rfl⟩
  have hwl : w.length = wt.length + 1 := by
    rw [hwt]
    rfl
  simp only [List.length_cons, List.length_append] at hf
  obtain ⟨g, rfl⟩ : ∃ g, f = g + 1 := by
    cases f with
    | zero => omega
    | succ g => exact ⟨g, rfl⟩
  have hs0 : scanBoth (g + 1) q2 q1
      ('[' :: (lab ++ (']' :: ('(' :: ((w ++ run) ++ (')' :: T)))))) =
      ('[' :: (scanBoth g q1 (some '[')
        (lab ++ (']' :: ('(' :: ((w ++ run) ++ (')' :: T)))))).1,
       (scanBoth g q1 (some '[')
        (lab ++ (']' :: ('(' :: ((w ++ run) ++ (')' :: T)))))).2) :=
    scanBoth_cons_none g q2 q1 '['
      (lab ++ (']' :: ('(' :: ((w ++ run) ++ (')' :: T)))))
      (matchScheme_ne_h (by decide))
  have hg : (lab ++ (']' :: ('(' :: ((w ++ run) ++ (')' :: T))))).length ≤ g := by
    simp only [List.length_cons, List.length_append]
    omega
  have hs1 := scan_walk lab g q1 (some '[')
    (']' :: ('(' :: ((w ++ run) ++ (')' :: T)))) hg hlab
    (fun c hc => by injection hc with h; subst h; decide)
  obtain ⟨f2, hf2⟩ : ∃ x, g - lab.length = x + 1 := ⟨g - lab.length - 1, by omega⟩
  have hs2 : scanBoth (g - lab.length) (advCtx (q1, some '[') lab).1
      (advCtx (q1, some '[') lab).2 (']' :: ('(' :: ((w ++ run) ++ (')' :: T)))) =
      (']' :: (scanBoth f2 (advCtx (q1, some '[') lab).2 (some ']')
        ('(' :: ((w ++ run) ++ (')' :: T)))).1,
       (scanBoth f2 (advCtx (q1, some '[') lab).2 (some ']')
        ('(' :: ((w ++ run) ++ (')' :: T)))).2) := by
    rw [hf2]
    exact scanBoth_cons_none f2 _ _ _ _ (matchScheme_ne_h (by decide))
  obtain ⟨f3, hf3⟩ : ∃ x, f2 = x + 1 := ⟨f2 - 1, by omega⟩
  have hs3 : scanBoth f2 (advCtx (q1, some '[') lab).2 (some ']')
      ('(' :: ((w ++ run) ++ (')' :: T))) =
      ('(' :: (scanBoth f3 (some ']') (some '(') ((w ++ run) ++ (')' :: T))).1,
       (scanBoth f3 (some ']') (some '(') ((w ++ run) ++ (')' :: T))).2) := by
    rw [hf3]
    exact scanBoth_cons_none f3 _ _ _ _ (matchScheme_ne_h (by decide))
  obtain ⟨f4, hf4⟩ : ∃ x, f3 = x + 1 := ⟨f3 - 1, by omega⟩
  have hcons : (w ++ run) ++ (')' :: T) = 'h' :: ((wt ++ run) ++ (')' :: T)) := by
    rw [hwt]
    simp
  have hms : matchScheme ('h' :: ((wt ++ run) ++ (')' :: T))) =
      some (w, run ++ (')' :: T)) := by
    rw [← hcons]
    rcases hw with rfl | rfl
    · rw [List.append_assoc]
      exact matchScheme_http _
    · rw [List.append_assoc]
      exact matchScheme_https _
  have hs4 : scanBoth f3 (some ']') (some '(') ((w ++ run) ++ (')' :: T)) =
      ('h' :: (scanBoth f4 (some '(') (some 'h') ((wt ++ run) ++ (')' :: T))).1,
       (scanBoth f4 (some '(') (some 'h') ((wt ++ run) ++ (')' :: T))).2) := by
    rw [hf4, hcons]
    exact scanBoth_cons_fail f4 _ _ _ _ w (run ++ (')' :: T)) hms (Or.inr ⟨rfl, rfl⟩)
  have hzs2 : hasScheme (wt ++ run) = false := by
    have ht2 : (w ++ run).tail = wt ++ run := by
      rw [hwt]
      rfl
    rw [← ht2]
    exact htail
  have hg4 : ((wt ++ run) ++ (')' :: T)).length ≤ f4 := by
    simp only [List.length_cons, List.length_append]
    omega
  have hs5 := scan_walk (wt ++ run) f4 (some '(') (some 'h') (')' :: T)
    hg4 hzs2 (fun c hc => by injection hc with h; subst h; decide)
  obtain ⟨f5, hf5⟩ : ∃ x, f4 - (wt ++ run).length = x + 1 :=
    ⟨f4 - (wt ++ run).length - 1, by
      simp only [List.length_append]
      simp only [List.length_cons, List.length_append] at hg4
      omega⟩
  have hs6 : scanBoth (f4 - (wt ++ run).length)
      (advCtx (some '(', some 'h') (wt ++ run)).1
      (advCtx (some '(', some 'h') (wt ++ run)).2 (')' :: T) =
      (')' :: (scanBoth f5 (advCtx (some '(', some 'h') (wt ++ run)).2 (some ')') T).1,
       (scanBoth f5 (advCtx (some '(', some 'h') (wt ++ run)).2 (some ')') T).2) := by
    rw [hf5]
    exact scanBoth_cons_none f5 _ _ _ _ (matchScheme_ne_h (by decide))
  have hlast : (advCtx (some '(', some 'h') (wt ++ run)).2 = (w ++ run).getLast? := by
    rw [advCtx_snd _ _ (fun hx => hrun (List.append_eq_nil.mp hx).2)]
    rw [getLast?_append_of_ne_nil wt hrun, ← getLast?_append_of_ne_nil w hrun]
  have hT : T.length ≤ f5 := by
    simp only [List.length_cons, List.length_append] at hg4
    simp only [List.length_append] at hf5
    omega
  have hs8 : scanBoth f5 ((w ++ run).getLast?) (some ')') T =
      scanBoth T.length ((w ++ run).getLast?) (some ')') T :=
    scanBoth_irrel f5 T.length _ _ T hT (le_refl _)
  rw [hs0, hs1, hs2, hs3, hs4, hs5, hs6, hlast, hs8]
  simp [hwt, List.append_assoc]


theorem Rctx_step {p2 p1 q2 q1 : Option Char} (h : Rctx (p2, p1) (q2, q1)) (c : Char) :
    Rctx (p1, some c) (q1, some c) := by
  have h2 : p1 = some ']' ↔ q1 = some ']' := h.2
  exact ⟨⟨fun hx => ⟨h2.mp hx.1, hx.2⟩, fun hx => ⟨h2.mpr hx.1, hx.2⟩⟩, Iff.rfl⟩

theorem Rctx_refl_none : Rctx (none, none) (none, none) := ⟨Iff.rfl, Iff.rfl⟩

theorem mem_of_getLast? {l : List Char} {a : Char} (h : l.getLast? = some a) : a ∈ l := by
  induction l with
  | nil => exact Option.noConfusion h
  | cons b t ih =>
      cases t with
      | nil =>
          injection h with hba
          rw [← hba]
          exact List.mem_cons_self b []
      | cons c cs =>
          rw [List.getLast?_cons_cons] at h
          exact List.mem_cons_of_mem b (ih h)

theorem isPrefixOf_exists {w l : List Char} (h : w.isPrefixOf l = true) :
    ∃ t, w ++ t = l := List.isPrefixOf_iff_prefix.mp h

theorem takeWhile_nil_head {p : Char → Bool} {l : List Char} (h : l.takeWhile p = [])
    {d : Char} (hd : l.head? = some d) : p d = false := by
  cases l with
  | nil => exact Option.noConfusion hd
  | cons a t =>
      injection hd with hda
      rw [List.takeWhile_cons] at h
      cases hp : p a with
      | false =>
          rw [← hda]
          exact hp
      | true =>
          rw [if_pos hp] at h
          exact List.noConfusion h

theorem scanBoth_fst_cons_ne {d : Char} (hd : d ≠ 'h') (F : Nat) (A B : Option Char)
    (l : List Char) : ∃ t, (scanBoth F A B (d :: l)).1 = d :: t := by
  cases F with
  | zero =>
      refine ⟨l, ?_⟩
      rw [scanBoth_zero]
  | succ g =>
      refine ⟨(scanBoth g B (some d) l).1, ?_⟩
      rw [scanBoth_cons_none g _ _ _ _ (matchScheme_ne_h hd)]

/-- A scan of a text whose head is not a URL character starts with that
non-URL character, so its `takeWhile isUrlChar` is empty. -/
theorem takeWhile_scan_nil {F : Nat} {A B : Option Char} {l : List Char}
    (h : l.takeWhile isUrlChar = []) :
    ((scanBoth F A B l).1).takeWhile isUrlChar = [] := by
  cases l with
  | nil => simp [scanBoth_nil]
  | cons d l2 =>
      have hud : isUrlChar d = false := takeWhile_nil_head h rfl
      have hdh : d ≠ 'h' := by
        intro hx
        rw [hx, (by decide : isUrlChar 'h' = true)] at hud
        exact Bool.noConfusion hud
      obtain ⟨t, ht⟩ := scanBoth_fst_cons_ne hdh F A B l2
      rw [ht, List.takeWhile_cons]
      simp [hud]

/-- Every URL the scan matches is a scheme followed by a nonempty run of
URL characters. -/
theorem scanBoth_matches_shape (f : Nat) : ∀ (p2 p1 : Option Char) (cs : List Char),
    ∀ u ∈ (scanBoth f p2 p1 cs).2,
      ∃ w run, (w = "http://".data ∨ w = "https://".data) ∧ u = w ++ run ∧
        run ≠ [] ∧ (∀ a ∈ run, isUrlChar a = true) := by
  induction f with
  | zero =>
      intro p2 p1 cs u hu
      rw [scanBoth_zero] at hu
      exact absurd hu (List.not_mem_nil u)
  | succ g ih =>
      intro p2 p1 cs u hu
      cases cs with
      | nil =>
          rw [scanBoth_nil] at hu
          exact absurd hu (List.not_mem_nil u)
      | cons c rest =>
          cases hm : matchScheme (c :: rest) with
          | none =>
              rw [scanBoth_cons_none g _ _ _ _ hm] at hu
              exact ih p1 (some c) rest u hu
          | some pr =>
              obtain ⟨w, after⟩ := pr
              by_cases hcond :
                  (after.takeWhile isUrlChar = [] ∨ (p2 = some ']' ∧ p1 = some '('))
              · rw [scanBoth_cons_fail g _ _ _ _ _ _ hm hcond] at hu
                exact ih p1 (some c) rest u hu
              · rw [scanBoth_cons_match g _ _ _ _ _ _ hm hcond] at hu
                rcases List.mem_cons.mp hu with rfl | hu2
                · refine ⟨w, after.takeWhile isUrlChar, ?_, rfl, ?_, ?_⟩
                  · rcases matchScheme_elim hm with ⟨hw, -⟩ | ⟨hw, -⟩
                    · exact Or.inr hw
                    · exact Or.inl hw
                  · intro hx
                    exact hcond (Or.inl hx)
                  · intro a ha
                    exact mem_takeWhile ha
                · exact ih _ _ _ u hu2


/-- Core idempotence: re-scanning a scan output copies it verbatim,
provided the two lookbehind windows are `Rctx`-related and every URL the
first pass matched is tame. -/
theorem scan_idem_main (f1 : Nat) :
    ∀ (p2 p1 q2 q1 : Option Char) (cs : List Char) (f2 : Nat),
    cs.length ≤ f1 →
    (scanBoth f1 p2 p1 cs).1.length ≤ f2 →
    Rctx (p2, p1) (q2, q1) →
    (∀ u ∈ (scanBoth f1 p2 p1 cs).2, goodUrl u = true) →
    (scanBoth f2 q2 q1 (scanBoth f1 p2 p1 cs).1).1 = (scanBoth f1 p2 p1 cs).1 := by
  induction f1 with
  | zero =>
      intro p2 p1 q2 q1 cs f2 h1 h2 hR hU
      have hnil : cs = [] := List.eq_nil_of_length_eq_zero (Nat.le_zero.mp h1)
      subst hnil
      simp [scanBoth_nil]
  | succ g ih =>
      intro p2 p1 q2 q1 cs f2 h1 h2 hR hU
      cases cs with
      | nil => simp [scanBoth_nil]
      | cons c rest =>
          have hrl : rest.length ≤ g := by
            simp only [List.length_cons] at h1
            omega
          cases hm : matchScheme (c :: rest) with
          | none =>
              have E1 : scanBoth (g + 1) p2 p1 (c :: rest) =
                  (c :: (scanBoth g p1 (some c) rest).1,
                   (scanBoth g p1 (some c) rest).2) :=
                scanBoth_cons_none g p2 p1 c rest hm
              have hurls : ∀ u ∈ (scanBoth g p1 (some c) rest).2, goodUrl u = true :=
                fun u hu => hU u (by rw [E1]; exact hu)
              have h2a : (scanBoth g p1 (some c) rest).1.length + 1 ≤ f2 := by
                rw [E1] at h2
                simpa using h2
              obtain ⟨f2x, rfl⟩ : ∃ x, f2 = x + 1 := ⟨f2 - 1, by omega⟩
              have hih := ih p1 (some c) q1 (some c) rest f2x hrl (by omega)
                (Rctx_step hR c) hurls
              have hm2 : matchScheme (c :: (scanBoth g p1 (some c) rest).1) = none := by
                by_cases hch : c = 'h'
                · subst hch
                  cases hm2c : matchScheme ('h' :: (scanBoth g p1 (some 'h') rest).1) with
                  | none => rfl
                  | some pr =>
                      exfalso
                      obtain ⟨w2, a2⟩ := pr
                      rcases matchScheme_elim hm2c with ⟨-, he2⟩ | ⟨-, he2⟩
                      · injection he2 with hh ht2
                        have hpre : ("ttps://".data).isPrefixOf
                            (scanBoth g p1 (some 'h') rest).1 = true := by
                          rw [ht2]
                          exact isPrefixOf_append a2 (by decide)
                        obtain ⟨t, ht⟩ := isPrefixOf_exists
                          (isPrefixOf_scan g p1 (some 'h') rest "ttps://".data
                            (by decide) hpre)
                        have hsome : matchScheme ('h' :: rest) =
                            some ("https://".data, t) := by
                          rw [← ht]
                          exact matchScheme_https t
                        exact Option.noConfusion (hm.symm.trans hsome)
                      · injection he2 with hh ht2
                        have hpre : ("ttp://".data).isPrefixOf
                            (scanBoth g p1 (some 'h') rest).1 = true := by
                          rw [ht2]
                          exact isPrefixOf_append a2 (by decide)
                        obtain ⟨t, ht⟩ := isPrefixOf_exists
                          (isPrefixOf_scan g p1 (some 'h') rest "ttp://".data
                            (by decide) hpre)
                        have hsome : matchScheme ('h' :: rest) =
                            some ("http://".data, t) := by
                          rw [← ht]
                          exact matchScheme_http t
                        exact Option.noConfusion (hm.symm.trans hsome)
                · exact matchScheme_ne_h hch
              have E2 : scanBoth (f2x + 1) q2 q1 (c :: (scanBoth g p1 (some c) rest).1) =
                  (c :: (scanBoth f2x q1 (some c) (scanBoth g p1 (some c) rest).1).1,
                   (scanBoth f2x q1 (some c) (scanBoth g p1 (some c) rest).1).2) :=
                scanBoth_cons_none f2x q2 q1 c _ hm2
              simp only [E1, E2, hih]
          | some pr =>
              obtain ⟨w, after⟩ := pr
              by_cases hcond : (after.takeWhile isUrlChar = [] ∨
                  (p2 = some ']' ∧ p1 = some '('))
              · by_cases hbl : p2 = some ']' ∧ p1 = some '('
                · have E1 : scanBoth (g + 1) p2 p1 (c :: rest) =
                      (c :: (scanBoth g p1 (some c) rest).1,
                       (scanBoth g p1 (some c) rest).2) :=
                    scanBoth_cons_fail g p2 p1 c rest w after hm (Or.inr hbl)
                  have hurls : ∀ u ∈ (scanBoth g p1 (some c) rest).2, goodUrl u = true :=
                    fun u hu => hU u (by rw [E1]; exact hu)
                  have h2a : (scanBoth g p1 (some c) rest).1.length + 1 ≤ f2 := by
                    rw [E1] at h2
                    simpa using h2
                  obtain ⟨f2x, rfl⟩ : ∃ x, f2 = x + 1 := ⟨f2 - 1, by omega⟩
                  have hih := ih p1 (some c) q1 (some c) rest f2x hrl (by omega)
                    (Rctx_step hR c) hurls
                  have E2 : scanBoth (f2x + 1) q2 q1
                      (c :: (scanBoth g p1 (some c) rest).1) =
                      (c :: (scanBoth f2x q1 (some c)
                          (scanBoth g p1 (some c) rest).1).1,
                       (scanBoth f2x q1 (some c)
                          (scanBoth g p1 (some c) rest).1).2) := by
                    cases hm2 : matchScheme (c :: (scanBoth g p1 (some c) rest).1) with
                    | none => exact scanBoth_cons_none f2x q2 q1 c _ hm2
                    | some pr2 =>
                        obtain ⟨w2, a2⟩ := pr2
                        exact scanBoth_cons_fail f2x q2 q1 c _ w2 a2 hm2
                          (Or.inr (hR.1.mp hbl))
                  simp only [E1, E2, hih]
                · have hrun0 : after.takeWhile isUrlChar = [] := hcond.resolve_right hbl
                  have E1 : scanBoth (g + 1) p2 p1 (c :: rest) =
                      (c :: (scanBoth g p1 (some c) rest).1,
                       (scanBoth g p1 (some c) rest).2) :=
                    scanBoth_cons_fail g p2 p1 c rest w after hm (Or.inl hrun0)
                  have hwor : (w = "http://".data ∨ w = "https://".data) ∧
                      c :: rest = w ++ after := by
                    rcases matchScheme_elim hm with ⟨hx, hy⟩ | ⟨hx, hy⟩
                    · exact ⟨Or.inr hx, by rw [hx]; exact hy⟩
                    · exact ⟨Or.inl hx, by rw [hx]; exact hy⟩
                  obtain ⟨wt, hwt, hwtsch, hwall⟩ :
                      ∃ wt, w = 'h' :: wt ∧ hasScheme wt = false ∧
                        (∀ X, matchScheme ('h' :: (wt ++ X)) = some (w, X)) := by
                    rcases hwor.1 with rfl | rfl
                    · exact ⟨"ttp://".data, rfl, by decide, fun X => matchScheme_http X⟩
                    · exact ⟨"ttps://".data, rfl, by decide, fun X => matchScheme_https X⟩
                  have hcr : c :: rest = 'h' :: (wt ++ after) := by
                    rw [hwor.2, hwt]
                    rfl
                  injection hcr with hch hrest
                  subst hch
                  have hurls : ∀ u ∈ (scanBoth g p1 (some 'h') rest).2, goodUrl u = true :=
                    fun u hu => hU u (by rw [E1]; exact hu)
                  have h2a : (scanBoth g p1 (some 'h') rest).1.length + 1 ≤ f2 := by
                    rw [E1] at h2
                    simpa using h2
                  obtain ⟨f2x, rfl⟩ : ∃ x, f2 = x + 1 := ⟨f2 - 1, by omega⟩
                  have hih := ih p1 (some 'h') q1 (some 'h') rest f2x hrl (by omega)
                    (Rctx_step hR 'h') hurls
                  have hsafe : ∀ d, after.head? = some d → d ∉ schemeChars := by
                    intro d hd hdm
                    have hud : isUrlChar d = false := takeWhile_nil_head hrun0 hd
                    have hut : isUrlChar d = true :=
                      (by decide : ∀ x ∈ schemeChars, isUrlChar x = true) d hdm
                    rw [hud] at hut
                    exact Bool.noConfusion hut
                  have hwlen : (wt ++ after).length ≤ g := by
                    rw [← hrest]
                    exact hrl
                  have hshape : (scanBoth g p1 (some 'h') rest).1 =
                      wt ++ (scanBoth (g - wt.length) (advCtx (p1, some 'h') wt).1
                        (advCtx (p1, some 'h') wt).2 after).1 := by
                    rw [hrest, scan_walk wt g p1 (some 'h') after hwlen hwtsch hsafe]
                  have htk2 : ((scanBoth (g - wt.length) (advCtx (p1, some 'h') wt).1
                      (advCtx (p1, some 'h') wt).2 after).1).takeWhile isUrlChar = [] :=
                    takeWhile_scan_nil hrun0
                  have hm2 : matchScheme ('h' :: (scanBoth g p1 (some 'h') rest).1) =
                      some (w, (scanBoth (g - wt.length) (advCtx (p1, some 'h') wt).1
                        (advCtx (p1, some 'h') wt).2 after).1) := by
                    rw [hshape]
                    exact hwall _
                  have E2 : scanBoth (f2x + 1) q2 q1
                      ('h' :: (scanBoth g p1 (some 'h') rest).1) =
                      ('h' :: (scanBoth f2x q1 (some 'h')
                          (scanBoth g p1 (some 'h') rest).1).1,
                       (scanBoth f2x q1 (some 'h')
                          (scanBoth g p1 (some 'h') rest).1).2) :=
                    scanBoth_cons_fail f2x q2 q1 'h' _ w _ hm2 (Or.inl htk2)
                  simp only [E1, E2, hih]
              · have E1 : scanBoth (g + 1) p2 p1 (c :: rest) =
                    (replacer (w ++ after.takeWhile isUrlChar) ++
                      (scanBoth g
                        (advCtx (p2, p1) (w ++ after.takeWhile isUrlChar)).1
                        (advCtx (p2, p1) (w ++ after.takeWhile isUrlChar)).2
                        (after.dropWhile isUrlChar)).1,
                     (w ++ after.takeWhile isUrlChar) ::
                      (scanBoth g
                        (advCtx (p2, p1) (w ++ after.takeWhile isUrlChar)).1
                        (advCtx (p2, p1) (w ++ after.takeWhile isUrlChar)).2
                        (after.dropWhile isUrlChar)).2) :=
                  scanBoth_cons_match g p2 p1 c rest w after hm hcond
                have hwor : (w = "http://".data ∨ w = "https://".data) ∧
                    c :: rest = w ++ after := by
                  rcases matchScheme_elim hm with ⟨hx, hy⟩ | ⟨hx, hy⟩
                  · exact ⟨Or.inr hx, by rw [hx]; exact hy⟩
                  · exact ⟨Or.inl hx, by rw [hx]; exact hy⟩
                have hUmem : goodUrl (w ++ after.takeWhile isUrlChar) = true :=
                  hU _ (by rw [E1]; exact List.mem_cons_self _ _)
                have hUr : ∀ u ∈ (scanBoth g
                    (advCtx (p2, p1) (w ++ after.takeWhile isUrlChar)).1
                    (advCtx (p2, p1) (w ++ after.takeWhile isUrlChar)).2
                    (after.dropWhile isUrlChar)).2, goodUrl u = true :=
                  fun u hu => hU u (by rw [E1]; exact List.mem_cons_of_mem _ hu)
                have htw : after.takeWhile isUrlChar ≠ [] := fun hx => hcond (Or.inl hx)
                have hgood2 : (¬ ']' ∈ w ++ after.takeWhile isUrlChar) ∧
                    hasScheme (w ++ after.takeWhile isUrlChar).tail = false := by
                  have hg2 := hUmem
                  unfold goodUrl at hg2
                  rw [Bool.and_eq_true] at hg2
                  constructor
                  · intro hmem
                    have hcontains :
                        (w ++ after.takeWhile isUrlChar).contains ']' = true :=
                      List.elem_iff.mpr hmem
                    rw [hcontains] at hg2
                    exact Bool.noConfusion hg2.1
                  · cases hsch : hasScheme (w ++ after.takeWhile isUrlChar).tail with
                    | false => rfl
                    | true =>
                        rw [hsch] at hg2
                        exact Bool.noConfusion hg2.2
                obtain ⟨lab, hrep, hlab⟩ := replacer_shape (w ++ after.takeWhile isUrlChar)
                  hwor.1 rfl hgood2.2
                have hassoc : replacer (w ++ after.takeWhile isUrlChar) ++
                    (scanBoth g (advCtx (p2, p1) (w ++ after.takeWhile isUrlChar)).1
                      (advCtx (p2, p1) (w ++ after.takeWhile isUrlChar)).2
                      (after.dropWhile isUrlChar)).1 =
                    '[' :: (lab ++ (']' :: ('(' :: ((w ++ after.takeWhile isUrlChar) ++
                      (')' :: (scanBoth g
                        (advCtx (p2, p1) (w ++ after.takeWhile isUrlChar)).1
                        (advCtx (p2, p1) (w ++ after.takeWhile isUrlChar)).2
                        (after.dropWhile isUrlChar)).1))))) := by
                  rw [hrep]
                  simp [List.append_assoc]
                have hlen2 : ('[' :: (lab ++ (']' :: ('(' ::
                    ((w ++ after.takeWhile isUrlChar) ++
                      (')' :: (scanBoth g
                        (advCtx (p2, p1) (w ++ after.takeWhile isUrlChar)).1
                        (advCtx (p2, p1) (w ++ after.takeWhile isUrlChar)).2
                        (after.dropWhile isUrlChar)).1)))))).length ≤ f2 := by
                  rw [← hassoc]
                  rw [E1] at h2
                  exact h2
                have hwrap := scan_wrap lab w (after.takeWhile isUrlChar)
                  (scanBoth g (advCtx (p2, p1) (w ++ after.takeWhile isUrlChar)).1
                    (advCtx (p2, p1) (w ++ after.takeWhile isUrlChar)).2
                    (after.dropWhile isUrlChar)).1 f2 q2 q1
                  hwor.1 hlab htw hgood2.2 hlen2
                have hlena : after.length ≤ rest.length := by
                  have hle := congrArg List.length hwor.2
                  simp only [List.length_cons, List.length_append] at hle
                  have hw1 : 1 ≤ w.length := by
                    rcases hwor.1 with rfl | rfl <;> decide
                  omega
                have hdl : (after.dropWhile isUrlChar).length ≤ g :=
                  le_trans (le_trans (length_dropWhile_le _ _) hlena) hrl
                have hne_nil : w ++ after.takeWhile isUrlChar ≠ [] := by
                  intro hx
                  exact htw (List.append_eq_nil.mp hx).2
                have hA2 : (advCtx (p2, p1) (w ++ after.takeWhile isUrlChar)).2 =
                    (w ++ after.takeWhile isUrlChar).getLast? := advCtx_snd _ _ hne_nil
                have hlast_ne1 :
                    (w ++ after.takeWhile isUrlChar).getLast? ≠ some '(' := by
                  intro hx
                  rw [getLast?_append_of_ne_nil w htw] at hx
                  exact absurd (mem_takeWhile (mem_of_getLast? hx)) (by decide)
                have hlast_ne2 :
                    (w ++ after.takeWhile isUrlChar).getLast? ≠ some ']' := by
                  intro hx
                  exact hgood2.1 (mem_of_getLast? hx)
                have hRc : Rctx ((advCtx (p2, p1) (w ++ after.takeWhile isUrlChar)).1,
                    (advCtx (p2, p1) (w ++ after.takeWhile isUrlChar)).2)
                    ((w ++ after.takeWhile isUrlChar).getLast?, some ')') := by
                  refine ⟨⟨fun hx => absurd (hA2 ▸ hx.2) hlast_ne1, fun hx => ?_⟩,
                    ⟨fun hx => absurd (hA2 ▸ hx) hlast_ne2, fun hx => ?_⟩⟩
                  · have hb : (some ')' : Option Char) = some '(' := hx.2
                    exact absurd hb (by decide)
                  · have hb : (some ')' : Option Char) = some ']' := hx
                    exact absurd hb (by decide)
                have hih := ih (advCtx (p2, p1) (w ++ after.takeWhile isUrlChar)).1
                  (advCtx (p2, p1) (w ++ after.takeWhile isUrlChar)).2
                  ((w ++ after.takeWhile isUrlChar).getLast?) (some ')')
                  (after.dropWhile isUrlChar)
                  (scanBoth g (advCtx (p2, p1) (w ++ after.takeWhile isUrlChar)).1
                    (advCtx (p2, p1) (w ++ after.takeWhile isUrlChar)).2
                    (after.dropWhile isUrlChar)).1.length
                  hdl (le_refl _) hRc hUr
                simp only [E1, hassoc, hwrap, hih]


/-! ## Claims C5 and C6: the URL beautifier -/

/-- **C5, counterexample.** Beautification is not idempotent in general:
in `"https://a.co/](https://b.co"` the whole text after the scheme is one
run of URL characters, so the first pass wraps it once, and the second
pass finds the scheme that reappears inside the generated label (where it
is not preceded by `](`) and wraps it again. -/
theorem C5_counterexample :
    _format_links_in_text (_format_links_in_text "https://a.co/](https://b.co") ≠
      _format_links_in_text "https://a.co/](https://b.co" := by decide

/-- **C5 (amended).** Beautification is idempotent on every text whose
matched URLs are tame: no matched URL contains `]`, and none contains a
second scheme occurrence after its first character. On such a text,
applying `_format_links_in_text` to its own output returns the output
unchanged — in particular URLs already wrapped by the first pass are
never wrapped a second time, thanks to the `](` lookbehind. -/
theorem C5_tame_idempotent (t : String)
    (h : ∀ u ∈ urlMatches t, goodUrl u = true) :
    _format_links_in_text (_format_links_in_text t) = _format_links_in_text t := by
  by_cases ht : t = ""
  · rw [ht]
    rfl
  · have h2 : ∀ u ∈ (scanBoth t.data.length none none t.data).2, goodUrl u = true := by
      intro u hu
      refine h u ?_
      unfold urlMatches
      rw [if_neg ht]
      exact hu
    have hmain := scan_idem_main t.data.length none none none none t.data
      ((scanBoth t.data.length none none t.data).1.length) (le_refl _) (le_refl _)
      Rctx_refl_none h2
    have h1 : _format_links_in_text t =
        ⟨(scanBoth t.data.length none none t.data).1⟩ := by
      unfold _format_links_in_text
      rw [if_neg ht]
    by_cases hz : (⟨(scanBoth t.data.length none none t.data).1⟩ : String) = ""
    · rw [h1, hz]
      rfl
    · rw [h1]
      unfold _format_links_in_text
      rw [if_neg hz]
      exact congrArg String.mk hmain

set_option maxRecDepth 100000 in
/-- Witness for C5: a text with one tame URL; beautifying twice equals
beautifying once. -/
theorem C5_tame_idempotent_witness :
    (∀ u ∈ urlMatches "去 https://example.com/page/ 看看", goodUrl u = true) ∧
    _format_links_in_text
        (_format_links_in_text "去 https://example.com/page/ 看看") =
      _format_links_in_text "去 https://example.com/page/ 看看" :=
  ⟨by decide, C5_tame_idempotent _ (by decide)⟩

/-- **C6.** Every URL the scan matches is a bare `http://`/`https://` URL
(a scheme followed by a nonempty run of URL characters), and its
replacement is the Markdown link `[label](url)` whose target is the
original URL unchanged and whose label is the fixed friendly Discord
phrase when the URL contains `discord.com/`, and otherwise the URL with
its scheme stripped and one trailing slash (if any) removed. -/
theorem C6_label_rule (t : String) (u : List Char) (hu : u ∈ urlMatches t) :
    (∃ w run, (w = "http://".data ∨ w = "https://".data) ∧ u = w ++ run ∧
      run ≠ []) ∧
    replacer u = '[' ::
      ((if occursB "discord.com/".data u then DISCORD_LABEL.data
        else trimSlash (stripScheme u)) ++ (']' :: ('(' :: (u ++ [')'])))) := by
  constructor
  · unfold urlMatches at hu
    by_cases ht : t = ""
    · rw [if_pos ht] at hu
      exact absurd hu (List.not_mem_nil u)
    · rw [if_neg ht] at hu
      obtain ⟨w, run, hw, hu2, hrun, -⟩ :=
        scanBoth_matches_shape t.data.length none none t.data u hu
      exact ⟨w, run, hw, hu2, hrun⟩
  · unfold replacer
    by_cases hd : occursB "discord.com/".data u = true
    · rw [if_pos hd, if_pos hd]
      simp [show ("](".data : List Char) = [']', '('] from rfl, List.append_assoc]
    · rw [if_neg hd, if_neg hd]
      simp [show ("](".data : List Char) = [']', '('] from rfl, List.append_assoc]

set_option maxRecDepth 100000 in
/-- Witness for C6: a Discord URL matched in a concrete text gets the
friendly label and keeps the original URL as the link target. -/
theorem C6_label_rule_witness :
    ("https://discord.com/ch/1".data ∈
      urlMatches "见 https://discord.com/ch/1 吧") ∧
    ((∃ w run, (w = "http://".data ∨ w = "https://".data) ∧
      "https://discord.com/ch/1".data = w ++ run ∧ run ≠ []) ∧
     replacer "https://discord.com/ch/1".data = '[' ::
      ((if occursB "discord.com/".data "https://discord.com/ch/1".data
        then DISCORD_LABEL.data
        else trimSlash (stripScheme "https://discord.com/ch/1".data)) ++
        (']' :: ('(' :: ("https://discord.com/ch/1".data ++ [')']))))) :=
  ⟨by decide, C6_label_rule "见 https://discord.com/ch/1 吧" _ (by decide)⟩

end Odysseia
